import Mathlib

/- Shallow embedding of the incremental synchronization and scoring engine of
   TrackmaniaMapInfoAnalyzer (src/main.py): the zone resolver, the
   rank-to-points formula, the pagination URL construction, the paginated
   fetch loop, and the per-map reconciliation engine.  Python floats are
   modelled by exact rationals; Python round with banker tie-breaking is
   modelled by an exact round-half-to-even on rationals.  Definitions come
   first, followed by the lemmas and the claim theorems. -/

/-- Geographic zone node: name, flag and an optional parent chain, mirroring
the nested zone dictionaries of the API (fields present per the documented
schema; a missing parent is the root constructor). -/
inductive Zone where
  | root (name flag : String)
  | node (name flag : String) (parent : Zone)
deriving DecidableEq

def Zone.name : Zone → String
  | .root n _ => n
  | .node n _ _ => n

def Zone.flag : Zone → String
  | .root _ f => f
  | .node _ f _ => f

def Zone.parent : Zone → Option Zone
  | .root _ _ => none
  | .node _ _ p => some p

/-- Root-first path from the root down to the given leaf, as built by the
insert-at-front while loop of get_actual_country_info. -/
def zonePath : Zone → List Zone
  | .root n f => [.root n f]
  | .node n f p => zonePath p ++ [.node n f p]

/-- Does the grandparent of a zone through the given parent exist and carry
the name World (first disjunct of the selection test in
get_actual_country_info). -/
def gpIsWorld (p : Zone) : Bool :=
  match p.parent with
  | some gp => gp.name = "World"
  | none => false

/-- The descending index loop of get_actual_country_info: walk the path from
the leaf back toward the root and return the name and flag of the first zone
matching the country-level test. -/
def findCountryInPath : List Zone → Option (String × String)
  | [] => none
  | z :: rest =>
    match z.parent with
    | some p =>
      if gpIsWorld p ∨ (p.name = "World" ∧ z.name ≠ "World") then
        some (z.name, z.flag)
      else findCountryInPath rest
    | none =>
      if z.name ≠ "World" then some (z.name, z.flag)
      else findCountryInPath rest

/-- Embedding of get_actual_country_info (src/main.py lines 52-79): resolve
the country-level name and flag of a leaf zone.  For a multi-zone path the
loop scans indices len-1 down to 0 of the root-first path, i.e. the reversed
path; if nothing matches, the leaf's own name and flag are the defaults.  A
single-zone path yields the zone's own name and flag in both the World and
the non-World branch. -/
def get_actual_country_info (z : Zone) : String × String :=
  let path := zonePath z
  if 1 < path.length then
    (findCountryInPath path.reverse).getD (z.name, z.flag)
  else
    (z.name, z.flag)

/-- Country info of the optional zone dictionary of a fetched row: a missing
zone value behaves as the empty dictionary, whose defaulted lookups give
Unknown and WOR. -/
def countryOf : Option Zone → String × String
  | some z => get_actual_country_info z
  | none => ("Unknown", "WOR")

/-- Exact integer value of ceil(log10 n) for a positive natural number: the
least t with n less than or equal to 10 to the t. -/
def ceilLog10 (n : ℕ) : ℕ :=
  if n ≤ 1 then 0 else Nat.log 10 (n - 1) + 1

/-- The tier of a rank in calculate_points_for_rank: ceil(log10 rank),
clamped to a minimum of 1. -/
def pointsTier (n : ℕ) : ℕ := max 1 (ceilLog10 n)

/-- Unrounded point value of a positive rank, following the tiered formula
of calculate_points_for_rank. -/
def pointsRaw (n : ℕ) : ℚ :=
  if pointsTier n < 2 then 40000 / n
  else (4000 / 2 ^ (pointsTier n - 1)) * ((10 : ℚ) ^ (pointsTier n - 1) / n + 9 / 10)

/-- Round a rational to the nearest integer, ties to even (the rounding of
Python round). -/
def roundHalfEven (q : ℚ) : ℤ :=
  if q - ⌊q⌋ < 1 / 2 then ⌊q⌋
  else if (1 : ℚ) / 2 < q - ⌊q⌋ then ⌊q⌋ + 1
  else if ⌊q⌋ % 2 = 0 then ⌊q⌋ else ⌊q⌋ + 1

/-- Round a rational to 2 decimal places, ties to even (round(x, 2)). -/
def round2 (q : ℚ) : ℚ := (roundHalfEven (q * 100) : ℚ) / 100

/-- Embedding of calculate_points_for_rank (src/main.py lines 108-119).
Ranks at most 0 give 0 points; positive ranks follow the tiered formula and
are rounded to 2 decimal places. -/
def calculate_points_for_rank (rank : ℤ) : ℚ :=
  if rank ≤ 0 then 0 else round2 (pointsRaw rank.toNat)

/-- Is the first list a prefix of the second (character matcher used by the
regex and replace embeddings). -/
def isPre : List Char → List Char → Bool
  | [], _ => true
  | _ :: _, [] => false
  | k :: ks, c :: cs => k = c && isPre ks cs

/-- Drop the first list from the front of the second when it is a prefix. -/
def dropPre : List Char → List Char → Option (List Char)
  | [], s => some s
  | _ :: _, [] => none
  | k :: ks, c :: cs => if c = k then dropPre ks cs else none

/-- Match a key followed by one or more digits at the front of a string (the
body of one regex match of a query parameter, after its separator), returning
the remainder after the greedy run of digits. -/
def matchParamAt (key : List Char) (s : List Char) : Option (List Char) :=
  match dropPre key s with
  | none => none
  | some rest =>
    let ds := rest.takeWhile Char.isDigit
    if ds.isEmpty then none else some (rest.drop ds.length)

/-- Fuelled scanner for one re.sub pass removing every non-overlapping match
of a separator character followed by the key and a greedy run of digits. -/
def subParamF (key : List Char) : ℕ → List Char → List Char
  | 0, s => s
  | _ + 1, [] => []
  | fuel + 1, c :: cs =>
    if c = '?' ∨ c = '&' then
      match matchParamAt key cs with
      | some rest => subParamF key fuel rest
      | none => c :: subParamF key fuel cs
    else c :: subParamF key fuel cs

/-- One re.sub pass: remove every non-overlapping occurrence of the pattern
separator-key-digits from the string (the embedding of
re.sub of a pattern of the shape bracket-question-ampersand key digits). -/
def subParam (key s : List Char) : List Char := subParamF key s.length s

/-- Strip one trailing question mark, then one trailing ampersand (lines
165-168 of src/main.py). -/
def stripTrail (s : List Char) : List Char :=
  let s1 := if s.getLast? = some '?' then s.dropLast else s
  if s1.getLast? = some '&' then s1.dropLast else s1

def offsetKey : List Char := ['o', 'f', 'f', 's', 'e', 't', '=']

def lengthKey : List Char := ['l', 'e', 'n', 'g', 't', 'h', '=']

/-- The base URL computed from a template: strip offset parameters, then
length parameters, then trailing separators (src/main.py lines 162-168). -/
def buildBase (template : List Char) : List Char :=
  stripTrail (subParam lengthKey (subParam offsetKey template))

def digitChar (n : ℕ) : Char := Char.ofNat (48 + n)

/-- Decimal rendering of a natural number (fuelled). -/
def natToCharsAux : ℕ → ℕ → List Char → List Char
  | 0, _, acc => acc
  | fuel + 1, n, acc =>
    if n = 0 then acc else natToCharsAux fuel (n / 10) (digitChar (n % 10) :: acc)

def natToChars (n : ℕ) : List Char :=
  if n = 0 then ['0'] else natToCharsAux n n []

/-- First-occurrence replacement, the embedding of str.replace with count 1. -/
def replaceFirst (pat rep : List Char) : List Char → List Char
  | [] => []
  | c :: cs =>
    if isPre pat (c :: cs) then rep ++ (c :: cs).drop pat.length
    else c :: replaceFirst pat rep cs

/-- Substring membership, the embedding of the Python in operator on
strings. -/
def containsSub (pat : List Char) : List Char → Bool
  | [] => isPre pat []
  | c :: cs => isPre pat (c :: cs) || containsSub pat cs

/-- Per-page URL construction from the stripped base (src/main.py lines
184-190): choose the separator by presence of a question mark, append the
offset and length parameters, then apply the (inoperative) first-occurrence
fix-up replacement. -/
def pageUrl (base : List Char) (off : ℕ) : List Char :=
  let pc : Char := if base.contains '?' then '&' else '?'
  let url := base ++ pc :: (offsetKey ++ natToChars off ++ '&' :: (lengthKey ++ natToChars 100))
  if pc = '?' ∧ containsSub ['l', 'e', 'n', 'g', 't', 'h'] url then
    replaceFirst ('?' :: (lengthKey ++ natToChars 100)) ('&' :: (lengthKey ++ natToChars 100)) url
  else url

/-- Split a character list on ampersands. -/
def splitAmp : List Char → List (List Char)
  | [] => [[]]
  | c :: cs =>
    if c = '&' then [] :: splitAmp cs
    else
      match splitAmp cs with
      | [] => [[c]]
      | seg :: rest => (c :: seg) :: rest

/-- Every ampersand-separated segment of a query string is a nonempty
key-equals-value parameter. -/
def segsOk (qs : List Char) : Bool :=
  (splitAmp qs).all fun seg => (!seg.isEmpty) && (seg.count '=' == 1)

/-- Well-formedness of a produced URL in the sense of the specification:
exactly one question mark introducing the query string (no ampersand before
it), and a nonempty query of ampersand-separated key-equals-value
parameters. -/
def wellFormedUrl (s : List Char) : Bool :=
  (s.count '?' == 1) &&
  ((s.takeWhile (· != '?')).count '&' == 0) &&
  (!(((s.dropWhile (· != '?')).tail).isEmpty)) &&
  segsOk ((s.dropWhile (· != '?')).tail)

/-- A query parameter of a structured URL template. -/
structure QParam where
  key : List Char
  val : List Char
deriving DecidableEq

def offsetName : List Char := ['o', 'f', 'f', 's', 'e', 't']

def lengthName : List Char := ['l', 'e', 'n', 'g', 't', 'h']

/-- Rendering of one query parameter as key=value. -/
def renderP (p : QParam) : List Char := p.key ++ '=' :: p.val

/-- Rendering of a list of separator-prefixed query parameters. -/
def renderChunks : List (Char × QParam) → List Char
  | [] => []
  | (sep, p) :: rest => sep :: (renderP p ++ renderChunks rest)

/-- A structured URL template: a path followed by an optional query string
whose first parameter is introduced by a question mark and the others by
ampersands. -/
def renderTemplate (path : List Char) : List QParam → List Char
  | [] => path
  | p :: ps => path ++ renderChunks (('?', p) :: ps.map (fun q => ('&', q)))

def goodPath (s : List Char) : Prop := ∀ c ∈ s, c ≠ '?' ∧ c ≠ '&'

def goodKey (k : List Char) : Prop := k ≠ [] ∧ ∀ c ∈ k, c ≠ '?' ∧ c ≠ '&' ∧ c ≠ '='

def goodVal (v : List Char) : Prop := v ≠ [] ∧ ∀ c ∈ v, Char.isDigit c

def goodParam (p : QParam) : Prop := goodKey p.key ∧ goodVal p.val

def goodChunk (x : Char × QParam) : Prop := (x.1 = '?' ∨ x.1 = '&') ∧ goodParam x.2

/-- The first character of the given string, if any, is not a digit. -/
def headNotDigit : List Char → Prop
  | [] => True
  | c :: _ => Char.isDigit c = false

/-- The chunk list of a template's query parameters: the first parameter is
introduced by a question mark, the rest by ampersands. -/
def chunksOf : List QParam → List (Char × QParam)
  | [] => []
  | p :: ps => ('?', p) :: ps.map fun q => ('&', q)

/-- A fetched leaderboard row of the tops array; every field is read with a
defaulted dictionary lookup in the source, hence optional here. -/
structure Row where
  playerId : Option String
  playerName : Option String
  zone : Option Zone
  time : Option Int
  score : Option Int
  timestamp : Option String
deriving DecidableEq

/-- A row of the players table. -/
structure PlayerRow where
  last_known_name : String
  country_name : String
  country_flag : String
  first_seen_by_script_at : String
deriving DecidableEq

/-- A row of the records table (composite key map_uid, player_id). -/
structure RecordRow where
  time_ms : Option Int
  score : Option Int
  position : ℕ
  game_timestamp : Option String
  script_recorded_at : String
  script_updated_at : String
  is_pb_since_last_fetch : Bool
  is_new_player_on_map_since_last_fetch : Bool
deriving DecidableEq

/-- A row of the maps table (key map_uid). -/
structure MapRow where
  api_url : String
  map_display_name : String
  last_playercount : Int
  last_fetched_at : String
  fetch_order : ℕ
  wr_player_id : Option String
  wr_time_ms : Option Int
  wr_game_timestamp : Option String
  wr_script_recorded_at : Option String
  is_new_wr_since_last_fetch : Bool
deriving DecidableEq

/-- The persistent store: the three entity tables, as point-lookup maps. -/
structure DB where
  maps : String → Option MapRow
  players : String → Option PlayerRow
  records : String → String → Option RecordRow

/-- The session event log accumulated over one fetch run. -/
structure Session where
  newly_added_players : List String
  new_pbs : List (String × String × Option Int × Option Int)
  new_players_on_map : List (String × String × Option Int)
  new_wrs : List (String × String × Option Int × String × Option Int)
  player_name_changes : List (String × String × String)
deriving DecidableEq

def emptySession : Session := ⟨[], [], [], [], []⟩

def DB.setMap (db : DB) (uid : String) (m : MapRow) : DB :=
  { db with maps := fun k => if k = uid then some m else db.maps k }

/-- SQL UPDATE on the maps table: a no-op when the row is absent. -/
def DB.updateMap (db : DB) (uid : String) (f : MapRow → MapRow) : DB :=
  { db with maps := fun k => if k = uid then (db.maps uid).map f else db.maps k }

def DB.setPlayer (db : DB) (pid : String) (p : PlayerRow) : DB :=
  { db with players := fun k => if k = pid then some p else db.players k }

def DB.setRecord (db : DB) (uid pid : String) (r : RecordRow) : DB :=
  { db with records := fun m k => if m = uid ∧ k = pid then some r else db.records m k }

/-- Python truthiness of an optional player id: None and the empty string
are both falsy. -/
def truthyId : Option String → Option String
  | some s => if s = "" then none else some s
  | none => none

/-- Python set add on the newly discovered player names. -/
def addNewlyAdded (sess : Session) (nm : String) : Session :=
  if nm ∈ sess.newly_added_players then sess
  else { sess with newly_added_players := sess.newly_added_players ++ [nm] }

/-- De-duplicated append of a player name change: skipped when an entry with
the same player id and the same new name is already logged (the guards at
src/main.py lines 262 and 304). -/
def addNameChange (sess : Session) (pid oldName newName : String) : Session :=
  if sess.player_name_changes.any fun c => c.1 = pid ∧ c.2.2 = newName then sess
  else { sess with player_name_changes := sess.player_name_changes ++ [(pid, oldName, newName)] }

/-- Lines 245-268 of src/main.py: resolve and upsert the rank-1 holder's
player row, with the UnknownWRPlayer name default. -/
def wrPlayerUpsert (t : String) (r : Row) (db : DB) (sess : Session) : DB × Session :=
  match truthyId r.playerId with
  | none => (db, sess)
  | some pid =>
    let nm := r.playerName.getD "UnknownWRPlayer"
    let cc := countryOf r.zone
    match db.players pid with
    | none =>
      (db.setPlayer pid ⟨nm, cc.1, cc.2, t⟩, addNewlyAdded sess nm)
    | some pl =>
      if pl.last_known_name ≠ nm then
        (db.setPlayer pid ⟨nm, cc.1, cc.2, pl.first_seen_by_script_at⟩,
         addNameChange sess pid pl.last_known_name nm)
      else
        (db.setPlayer pid { pl with country_name := cc.1, country_flag := cc.2 }, sess)

/-- The stored WR holder name as read by the LEFT JOIN at line 270: an
absent row, a NULL holder, an unknown player or an empty stored name all
read as N/A. -/
def wrStoredName (db : DB) (uid : String) : String :=
  match db.maps uid with
  | none => "N/A"
  | some m =>
    match m.wr_player_id with
    | none => "N/A"
    | some pid =>
      match db.players pid with
      | none => "N/A"
      | some pl => if pl.last_known_name = "" then "N/A" else pl.last_known_name

def wrStoredId (db : DB) (uid : String) : Option String :=
  match db.maps uid with
  | none => none
  | some m => m.wr_player_id

def wrStoredTime (db : DB) (uid : String) : Option Int :=
  match db.maps uid with
  | none => none
  | some m => m.wr_time_ms

/-- Lines 270-287 of src/main.py: compare the fetched rank-1 entry against
the stored WR snapshot; on a difference record a WR change event and
overwrite the snapshot, and when the fetched candidate is missing but a
stored holder exists, record the event and clear the snapshot. -/
def wrCompare (uid mname t : String) (rows : List Row) (db : DB) (sess : Session) :
    DB × Session :=
  let apiPid := match rows.head? with | some r => truthyId r.playerId | none => none
  let apiTime := match rows.head? with | some r => r.time | none => none
  let apiTs := match rows.head? with | some r => r.timestamp | none => none
  let apiName := match rows.head? with
    | some r => r.playerName.getD "UnknownWRPlayer"
    | none => "N/A"
  let dbPid := wrStoredId db uid
  let dbTime := wrStoredTime db uid
  let dbName := wrStoredName db uid
  match apiPid, apiTime with
  | some pid, some tms =>
    if dbPid ≠ some pid ∨ dbTime ≠ some tms then
      (db.updateMap uid fun m =>
        { m with
          wr_player_id := some pid
          wr_time_ms := some tms
          wr_game_timestamp := apiTs
          wr_script_recorded_at := some t
          is_new_wr_since_last_fetch := true },
       { sess with new_wrs := sess.new_wrs ++ [(mname, apiName, some tms, dbName, dbTime)] })
    else (db, sess)
  | _, _ =>
    if (wrStoredId db uid).isSome then
      (db.updateMap uid fun m =>
        { m with
          wr_player_id := none
          wr_time_ms := none
          wr_game_timestamp := none
          wr_script_recorded_at := some t
          is_new_wr_since_last_fetch := true },
       { sess with new_wrs := sess.new_wrs ++
         [(mname, "None (Empty Leaderboard or WR Deleted)", none, dbName, dbTime)] })
    else (db, sess)

/-- One iteration of the per-row reconciliation loop (lines 289-334): skip
rows without a player id, upsert the player (with name-change detection),
then insert or classify the record. -/
def rowStep (uid mname t : String) (rank : ℕ) (r : Row) (db : DB) (sess : Session) :
    DB × Session :=
  match truthyId r.playerId with
  | none => (db, sess)
  | some pid =>
    let nm := r.playerName.getD "Unknown"
    let cc := countryOf r.zone
    let st1 :=
      match db.players pid with
      | none => (db.setPlayer pid ⟨nm, cc.1, cc.2, t⟩, addNewlyAdded sess nm)
      | some pl =>
        (db.setPlayer pid ⟨nm, cc.1, cc.2, pl.first_seen_by_script_at⟩,
         if pl.last_known_name ≠ nm then addNameChange sess pid pl.last_known_name nm
         else sess)
    let db1 := st1.1
    let s1 := st1.2
    match db1.records uid pid with
    | none =>
      (db1.setRecord uid pid ⟨r.time, r.score, rank, r.timestamp, t, t, false, true⟩,
       { s1 with new_players_on_map := s1.new_players_on_map ++ [(nm, mname, r.time)] })
    | some rec =>
      let is_pb : Bool :=
        match r.time, rec.time_ms with
        | some _, none => true
        | some tv, some te => tv < te ∨ (tv = te ∧ rank < rec.position)
        | none, _ => false
      if is_pb then
        (db1.setRecord uid pid
          { rec with
            time_ms := r.time
            score := r.score
            position := rank
            game_timestamp := r.timestamp
            script_updated_at := t
            is_pb_since_last_fetch := true },
         { s1 with new_pbs := s1.new_pbs ++ [(nm, mname, r.time, rec.time_ms)] })
      else if rank ≠ rec.position then
        (db1.setRecord uid pid { rec with position := rank, script_updated_at := t }, s1)
      else
        (db1.setRecord uid pid { rec with script_updated_at := t }, s1)

/-- The per-row loop folded over the fetched leaderboard in ascending rank
order (enumerate with start 1). -/
def processRows (uid mname t : String) : List Row → ℕ → DB → Session → DB × Session
  | [], _, db, sess => (db, sess)
  | r :: rs, rank, db, sess =>
    let st := rowStep uid mname t rank r db sess
    processRows uid mname t rs (rank + 1) st.1 st.2

/-- Map row upsert: INSERT OR IGNORE followed by UPDATE (lines 209-218)
preserves an existing row's WR snapshot and flag while rewriting the
display name, player count, fetch time, URL and fetch order. -/
def upsertMapRow (uid url mname : String) (forder : ℕ) (t : String) (pc : Int)
    (db : DB) : DB :=
  match db.maps uid with
  | some m => db.setMap uid
      { m with
        map_display_name := mname
        last_playercount := pc
        last_fetched_at := t
        api_url := url
        fetch_order := forder }
  | none => db.setMap uid ⟨url, mname, pc, t, forder, none, none, none, none, false⟩

/-- Per-map reconciliation (src/main.py lines 207-335, given the pagination
outcome): upsert the map row when the first page succeeded, correct the
player count to the actually fetched count when it differs, upsert the
rank-1 holder, reconcile the WR snapshot, then run the row loop. -/
def mapPhase (uid url mname : String) (forder : ℕ) (t : String) (pcApi : Int)
    (ffd : Bool) (rowsLen : ℕ) (db : DB) : DB :=
  let db1 := if ffd then upsertMapRow uid url mname forder t pcApi db else db
  if (rowsLen : Int) ≠ pcApi then
    db1.updateMap uid (fun m => { m with last_playercount := (rowsLen : Int) })
  else db1

def processMap (uid url mname : String) (forder : ℕ) (t : String) (rows : List Row)
    (pcApi : Int) (ffd : Bool) (db : DB) (sess : Session) : DB × Session :=
  let db2 := mapPhase uid url mname forder t pcApi ffd rows.length db
  let st3 :=
    match rows.head? with
    | some r => wrPlayerUpsert t r db2 sess
    | none => (db2, sess)
  let st4 := wrCompare uid mname t rows st3.1 st3.2
  processRows uid mname t rows 1 st4.1 st4.2

/-- Reset of the transient per-fetch flags at the start of a run (lines
144-145). -/
def resetFlags (db : DB) : DB :=
  { maps := fun k => (db.maps k).map fun m => { m with is_new_wr_since_last_fetch := false },
    players := db.players,
    records := fun m p => (db.records m p).map fun r =>
      { r with
        is_pb_since_last_fetch := false
        is_new_player_on_map_since_last_fetch := false } }

/-- One entry of a fetch run: a map identity together with its pagination
outcome. -/
structure MapEntry where
  uid : String
  url : String
  mname : String
  forder : ℕ
  rows : List Row
  pcApi : Int
  ffd : Bool

/-- Fold of the per-map reconciliation over the run's map entries. -/
def processAll (t : String) : List MapEntry → DB × Session → DB × Session
  | [], st => st
  | e :: es, st =>
    processAll t es (processMap e.uid e.url e.mname e.forder t e.rows e.pcApi e.ffd st.1 st.2)

/-- One complete fetch run: reset the flags, start from a fresh session
event log, and process every map entry in order. -/
def runAll (t : String) (entries : List MapEntry) (db : DB) : DB × Session :=
  processAll t entries (resetFlags db, emptySession)

/-- Fuelled embedding of the pagination loop (src/main.py lines 183-236):
one request per iteration against an abstract API of the page offset (none
models a transport error or a malformed body), returning the accumulated
rows, the captured reported player count, the first-fetch-done flag and the
number of requests made.  The termination conditions are checked in the
source order: end on error, on an empty tops array, on a short page, on the
offset reaching a positive reported count, and on the ten-thousand-record
safety cap when the reported count is zero. -/
def fetchLoopF (api : ℕ → Option (Int × List Row)) :
    ℕ → ℕ → Int → Bool → Option (List Row × Int × Bool × ℕ)
  | 0, _, _, _ => none
  | fuel + 1, offset, pc, ffd =>
    match api offset with
    | none => some ([], pc, ffd, 1)
    | some (rpc, rows) =>
      let pc' := if ffd then pc else rpc
      if rows = [] then some ([], pc', true, 1)
      else if rows.length < 100 then some (rows, pc', true, 1)
      else if (offset + 100 : Int) ≥ pc' ∧ pc' > 0 then some (rows, pc', true, 1)
      else if offset + 100 ≥ 10000 ∧ pc' = 0 then some (rows, pc', true, 1)
      else
        match fetchLoopF api fuel (offset + 100) pc' true with
        | none => none
        | some (rest, pcf, ffdf, n) => some (rows ++ rest, pcf, ffdf, n + 1)

/-- The de-duplication key of a name-change event: player id and new name. -/
def nameKey (c : String × String × String) : String × String := (c.1, c.2.2)

/-- Erase the per-run update timestamp of a record row. -/
def scrubRec (x : RecordRow) : RecordRow := { x with script_updated_at := "" }

/-- Erase the per-run fetch timestamp of a map row. -/
def scrubMap (m : MapRow) : MapRow := { m with last_fetched_at := "" }

/-- The part of a record row the reconciliation decisions read: position and
time. -/
def recCore (x : RecordRow) : ℕ × Option Int := (x.position, x.time_ms)

/-- The part of a map row untouched by the WR comparison: url, display name,
player count and fetch order. -/
def mapCore (m : MapRow) : String × String × Int × ℕ :=
  (m.api_url, m.map_display_name, m.last_playercount, m.fetch_order)

/-- The store already reflects the given fetched row at the given rank: the
player row carries the row's name and country, and the record row carries
the rank as its position and a stored time at most the fetched one. -/
def rowSettled (uid : String) (r : Row) (k : ℕ) (db : DB) : Prop :=
  ∀ pid, truthyId r.playerId = some pid →
    (∃ pl, db.players pid = some pl ∧
      pl.last_known_name = r.playerName.getD "Unknown" ∧
      pl.country_name = (countryOf r.zone).1 ∧
      pl.country_flag = (countryOf r.zone).2) ∧
    (∃ rec, db.records uid pid = some rec ∧ rec.position = k ∧
      (∀ tv, r.time = some tv → ∃ te, rec.time_ms = some te ∧ te ≤ tv))

/-- The stored WR snapshot already matches the fetched leaderboard head:
when the head carries a truthy player id and a time, the snapshot stores
exactly those; otherwise the snapshot stores no holder. -/
def wrMatches (uid : String) (rows : List Row) (db : DB) : Prop :=
  (∀ r, rows.head? = some r → ∀ pid tms,
    truthyId r.playerId = some pid → r.time = some tms →
      wrStoredId db uid = some pid ∧ wrStoredTime db uid = some tms) ∧
  ((rows.head? = none ∨
      ∃ r, rows.head? = some r ∧ (truthyId r.playerId = none ∨ r.time = none)) →
    wrStoredId db uid = none)

/-- A full-page row used by the concrete pagination scenario. -/
def dummyRow : Row := ⟨some "x", some "X", none, some 1, some 0, none⟩

/-- Abstract API of a map reporting 250 players and serving pages of 100,
100 and 50 records at offsets 0, 100 and 200. -/
def api250 : ℕ → Option (Int × List Row) := fun o =>
  if o = 0 then some (250, List.replicate 100 dummyRow)
  else if o = 100 then some (250, List.replicate 100 dummyRow)
  else if o = 200 then some (250, List.replicate 50 dummyRow)
  else none

def dbEmpty : DB := ⟨fun _ => none, fun _ => none, fun _ _ => none⟩

/-- A store already knowing player p1 under the name A. -/
def db0C3 : DB :=
  ⟨fun _ => none,
   fun k => if k = "p1" then some ⟨"A", "X", "XF", "t0"⟩ else none,
   fun _ _ => none⟩

/-- A leaderboard row for p1 reporting the given display name. -/
def pRow (nm : String) : Row := ⟨some "p1", some nm, none, some 1000, some 0, none⟩

/-- A leaderboard row appearing twice in one fetched page. -/
def qRow : Row := ⟨some "q1", some "N", none, some 40, some 0, none⟩

/-- A leaderboard row carrying no player name. -/
def nRow : Row := ⟨some "q2", none, none, some 5, some 0, none⟩

/-- A store with a recorded WR snapshot (holder w1, 777 ms) for map m. -/
def db0C5 : DB :=
  ⟨fun k => if k = "m" then
      some ⟨"u", "M", 5, "t0", 0, some "w1", some 777, none, some "t0", false⟩ else none,
   fun k => if k = "w1" then some ⟨"W", "X", "XF", "t0"⟩ else none,
   fun _ _ => none⟩

/-- A fetched rank-1 row differing from the stored snapshot of db0C5. -/
def wRow : Row := ⟨some "p2", some "P2", none, some 500, some 0, none⟩

/-- A store holding a record of 10000 ms at position 5 for (m, p9). -/
def db0C6 : DB :=
  ⟨fun _ => none,
   fun k => if k = "p9" then some ⟨"P", "X", "XF", "t0"⟩ else none,
   fun m p => if m = "m" ∧ p = "p9" then
      some ⟨some 10000, some 0, 5, none, "t0", "t0", false, false⟩ else none⟩

/-- A store holding a record of 10000 ms at position 3 for (m, p9). -/
def db0C6b : DB :=
  ⟨fun _ => none,
   fun k => if k = "p9" then some ⟨"P", "X", "XF", "t0"⟩ else none,
   fun m p => if m = "m" ∧ p = "p9" then
      some ⟨some 10000, some 0, 3, none, "t0", "t0", false, false⟩ else none⟩

/-- A fetched row for p9 at 10000 ms. -/
def c6row : Row := ⟨some "p9", some "P", none, some 10000, some 0, none⟩

/-- A plain leaderboard row with a present id and name. -/
def aRow : Row := ⟨some "p1", some "A", none, some 10, some 0, none⟩

lemma pointsTier_of_le10 {n : ℕ} (h : n ≤ 10) : pointsTier n = 1 := by
  unfold pointsTier ceilLog10
  by_cases h1 : n ≤ 1
  · simp [h1]
  · have : Nat.log 10 (n - 1) = 0 := by
      rw [Nat.log_eq_zero_iff]
      left
      omega
    simp [h1, this]

lemma pointsTier_eq_of {n a : ℕ} (ha : 1 ≤ a) (h1 : 10 ^ (a - 1) < n)
    (h2 : n ≤ 10 ^ a) : pointsTier n = a := by
  have hn2 : 2 ≤ n := by
    have : 1 ≤ 10 ^ (a - 1) := Nat.one_le_pow _ _ (by norm_num)
    omega
  have hlog : Nat.log 10 (n - 1) = a - 1 := by
    apply Nat.log_eq_of_pow_le_of_lt_pow
    · omega
    · have : a - 1 + 1 = a := by omega
      rw [this]
      omega
  unfold pointsTier ceilLog10
  rw [if_neg (by omega), hlog]
  omega

lemma pointsTier_bounds {n : ℕ} (h : 11 ≤ n) :
    10 ^ (pointsTier n - 1) < n ∧ n ≤ 10 ^ pointsTier n ∧ 2 ≤ pointsTier n := by
  have hne : n - 1 ≠ 0 := by omega
  have hlow : 10 ^ Nat.log 10 (n - 1) ≤ n - 1 := Nat.pow_log_le_self 10 hne
  have hhigh : n - 1 < 10 ^ (Nat.log 10 (n - 1) + 1) :=
    Nat.lt_pow_succ_log_self (by norm_num) (n - 1)
  have hlog1 : 1 ≤ Nat.log 10 (n - 1) := by
    have h10 : Nat.log 10 10 = 1 :=
      Nat.log_eq_of_pow_le_of_lt_pow (by norm_num) (by norm_num)
    have : 10 ≤ n - 1 := by omega
    calc 1 = Nat.log 10 10 := h10.symm
         _ ≤ Nat.log 10 (n - 1) := Nat.log_mono_right this
  have htier : pointsTier n = Nat.log 10 (n - 1) + 1 := by
    unfold pointsTier ceilLog10
    rw [if_neg (by omega)]
    omega
  refine ⟨?_, ?_, by omega⟩
  · rw [htier, Nat.add_sub_cancel]
    exact lt_of_le_of_lt hlow (Nat.sub_lt (by omega) one_pos)
  · rw [htier]
    exact Nat.le_of_pred_lt hhigh

/-- Compute round2 at an explicit fraction whose fractional part at 2
decimals is below one half. -/
lemma round2_eq_of {q : ℚ} {z : ℤ} (h1 : (z : ℚ) ≤ q * 100)
    (h2 : q * 100 < (z : ℚ) + 1 / 2) : round2 q = (z : ℚ) / 100 := by
  have hf : ⌊q * 100⌋ = z := by
    rw [Int.floor_eq_iff]
    constructor
    · exact h1
    · linarith
  unfold round2 roundHalfEven
  rw [hf]
  rw [if_pos (by linarith)]

lemma roundHalfEven_ge_floor (q : ℚ) : ⌊q⌋ ≤ roundHalfEven q := by
  unfold roundHalfEven
  split_ifs <;> omega

lemma roundHalfEven_le_floor_add_one (q : ℚ) : roundHalfEven q ≤ ⌊q⌋ + 1 := by
  unfold roundHalfEven
  split_ifs <;> omega

lemma roundHalfEven_mono {p q : ℚ} (h : p ≤ q) :
    roundHalfEven p ≤ roundHalfEven q := by
  have hfl : ⌊p⌋ ≤ ⌊q⌋ := Int.floor_mono h
  rcases lt_or_eq_of_le hfl with hlt | heq
  · have h1 := roundHalfEven_le_floor_add_one p
    have h2 := roundHalfEven_ge_floor q
    omega
  · unfold roundHalfEven
    rw [← heq]
    split_ifs <;> first
      | omega
      | (exfalso; linarith)

lemma round2_mono {p q : ℚ} (h : p ≤ q) : round2 p ≤ round2 q := by
  unfold round2
  have h1 : p * 100 ≤ q * 100 := by linarith
  have h2 : roundHalfEven (p * 100) ≤ roundHalfEven (q * 100) := roundHalfEven_mono h1
  have h3 : ((roundHalfEven (p * 100) : ℚ)) ≤ ((roundHalfEven (q * 100) : ℚ)) := by
    exact_mod_cast h2
  linarith

lemma pointsRaw_of_le10 {n : ℕ} (h : n ≤ 10) : pointsRaw n = 40000 / n := by
  rw [pointsRaw, pointsTier_of_le10 h, if_pos (by norm_num)]

lemma pointsRaw_succ_le {n : ℕ} (h : 1 ≤ n) : pointsRaw (n + 1) ≤ pointsRaw n := by
  rcases le_or_lt (n + 1) 10 with h10 | h10
  · rw [pointsRaw_of_le10 h10, pointsRaw_of_le10 (by omega)]
    have hn : (0 : ℚ) < n := by exact_mod_cast h
    have hn1 : (0 : ℚ) < ((n : ℚ) + 1) := by linarith
    rw [show ((n + 1 : ℕ) : ℚ) = (n : ℚ) + 1 by push_cast; ring]
    rw [div_le_div_iff hn1 hn]
    nlinarith
  · rcases eq_or_lt_of_le (show 10 ≤ n by omega) with heq | hgt
    · have h11 : pointsTier 11 = 2 := pointsTier_eq_of (by norm_num) (by norm_num) (by norm_num)
      subst heq
      rw [show (10 : ℕ) + 1 = 11 from rfl, pointsRaw_of_le10 (le_refl 10),
        pointsRaw, h11, if_neg (by norm_num)]
      norm_num
    · obtain ⟨hb1, hb2, ht2⟩ := pointsTier_bounds (show 11 ≤ n by omega)
      rcases lt_or_eq_of_le hb2 with hlt | heqp
      · -- same tier for n and n+1
        have htsame : pointsTier (n + 1) = pointsTier n :=
          pointsTier_eq_of (by omega) (lt_trans hb1 (Nat.lt_succ_self n))
            (Nat.succ_le_of_lt hlt)
        rw [pointsRaw, pointsRaw, htsame, if_neg (by omega), if_neg (by omega)]
        have hn : (0 : ℚ) < n := by exact_mod_cast (by omega : 0 < n)
        have hn1 : (0 : ℚ) < ((n : ℚ) + 1) := by linarith
        apply mul_le_mul_of_nonneg_left _ (by positivity)
        apply add_le_add_right
        rw [show ((n + 1 : ℕ) : ℚ) = (n : ℚ) + 1 by push_cast; ring]
        rw [div_le_div_iff hn1 hn]
        nlinarith [pow_nonneg (by norm_num : (0 : ℚ) ≤ 10) (pointsTier n - 1)]
      · -- n is exactly a power of ten: the tier increases by one
        obtain ⟨s, hs⟩ : ∃ s, pointsTier n = s + 1 := ⟨pointsTier n - 1, by omega⟩
        have hnp : n = 10 ^ (s + 1) := by rw [← hs]; exact heqp
        have hx : 1 ≤ 10 ^ (s + 1) := Nat.one_le_pow _ _ (by norm_num)
        have htnext : pointsTier (n + 1) = s + 2 := by
          apply pointsTier_eq_of (by omega)
          · rw [show s + 2 - 1 = s + 1 by omega, ← hnp]
            exact Nat.lt_succ_self n
          · rw [show (10 : ℕ) ^ (s + 2) = 10 ^ (s + 1) * 10 by ring, hnp]
            nlinarith
        have hq : ((n : ℚ)) = (10 : ℚ) ^ (s + 1) := by rw [hnp]; push_cast; ring
        have h10s : (0 : ℚ) < (10 : ℚ) ^ (s + 1) := by positivity
        have hfrac : (10 : ℚ) ^ (s + 1) / ((10 : ℚ) ^ (s + 1) + 1) ≤ 1 := by
          rw [div_le_one (by positivity)]
          linarith
        have hlhs : pointsRaw (n + 1) =
            (4000 / 2 ^ (s + 1)) * ((10 : ℚ) ^ (s + 1) / ((10 : ℚ) ^ (s + 1) + 1) + 9 / 10) := by
          rw [pointsRaw, htnext, if_neg (by omega), show s + 2 - 1 = s + 1 by omega]
          push_cast
          rw [hq]
        have hrhs : pointsRaw n = 4000 / 2 ^ s := by
          rw [pointsRaw, hs, if_neg (by omega), show s + 1 - 1 = s by omega, hq]
          have h2 : ((2 : ℚ)) ^ s ≠ 0 := by positivity
          have h10 : ((10 : ℚ)) ^ s ≠ 0 := by positivity
          rw [show (10 : ℚ) ^ (s + 1) = 10 ^ s * 10 by ring]
          field_simp
          ring
        rw [hlhs, hrhs]
        calc (4000 / 2 ^ (s + 1)) * ((10 : ℚ) ^ (s + 1) / ((10 : ℚ) ^ (s + 1) + 1) + 9 / 10)
            ≤ (4000 / 2 ^ (s + 1)) * (1 + 9 / 10) := by
              apply mul_le_mul_of_nonneg_left _ (by positivity)
              linarith
          _ = (4000 / 2 ^ s) * (19 / 20) := by
              rw [show (2 : ℚ) ^ (s + 1) = 2 ^ s * 2 by ring]
              have h2 : ((2 : ℚ)) ^ s ≠ 0 := by positivity
              field_simp
              ring
          _ ≤ (4000 / 2 ^ s) * 1 := by
              apply mul_le_mul_of_nonneg_left (by norm_num) (by positivity)
          _ = 4000 / 2 ^ s := by ring

lemma pointsRaw_antitone {a b : ℕ} (ha : 1 ≤ a) (hab : a ≤ b) :
    pointsRaw b ≤ pointsRaw a := by
  induction b, hab using Nat.le_induction with
  | base => exact le_refl _
  | succ m hm ih => exact le_trans (pointsRaw_succ_le (le_trans ha hm)) ih

lemma calculate_points_antitone_int {a b : ℤ} (ha : 1 ≤ a) (hab : a ≤ b) :
    calculate_points_for_rank b ≤ calculate_points_for_rank a := by
  rw [calculate_points_for_rank, calculate_points_for_rank,
    if_neg (by omega), if_neg (by omega)]
  exact round2_mono (pointsRaw_antitone (by omega) (by omega))

lemma points_val_1 : calculate_points_for_rank 1 = 40000 := by
  rw [calculate_points_for_rank, if_neg (by norm_num),
    show (1 : ℤ).toNat = 1 from rfl, pointsRaw_of_le10 (by norm_num),
    show (40000 : ℚ) / ((1 : ℕ) : ℚ) = 40000 by norm_num,
    round2_eq_of (z := 4000000) (by norm_num) (by norm_num)]
  norm_num

lemma points_val_9 : calculate_points_for_rank 9 = 4444.44 := by
  rw [calculate_points_for_rank, if_neg (by norm_num),
    show (9 : ℤ).toNat = 9 from rfl, pointsRaw_of_le10 (by norm_num),
    show (40000 : ℚ) / ((9 : ℕ) : ℚ) = 40000 / 9 by norm_num,
    round2_eq_of (z := 444444) (by norm_num) (by norm_num)]
  norm_num

lemma points_val_10 : calculate_points_for_rank 10 = 4000 := by
  rw [calculate_points_for_rank, if_neg (by norm_num),
    show (10 : ℤ).toNat = 10 from rfl, pointsRaw_of_le10 (by norm_num),
    show (40000 : ℚ) / ((10 : ℕ) : ℚ) = 4000 by norm_num,
    round2_eq_of (z := 400000) (by norm_num) (by norm_num)]
  norm_num

lemma points_val_11 : calculate_points_for_rank 11 = 3618.18 := by
  have h11 : pointsTier 11 = 2 := pointsTier_eq_of (by norm_num) (by norm_num) (by norm_num)
  have hraw : pointsRaw 11 = 39800 / 11 := by
    rw [pointsRaw, h11, if_neg (by norm_num)]
    norm_num
  rw [calculate_points_for_rank, if_neg (by norm_num),
    show (11 : ℤ).toNat = 11 from rfl, hraw,
    round2_eq_of (z := 361818) (by norm_num) (by norm_num)]
  norm_num

lemma points_val_100 : calculate_points_for_rank 100 = 2000 := by
  have h100 : pointsTier 100 = 2 := pointsTier_eq_of (by norm_num) (by norm_num) (by norm_num)
  have hraw : pointsRaw 100 = 2000 := by
    rw [pointsRaw, h100, if_neg (by norm_num)]
    norm_num
  rw [calculate_points_for_rank, if_neg (by norm_num),
    show (100 : ℤ).toNat = 100 from rfl, hraw,
    round2_eq_of (z := 200000) (by norm_num) (by norm_num)]
  norm_num

lemma dropPre_length : ∀ {k s r : List Char}, dropPre k s = some r → r.length ≤ s.length := by
  intro k
  induction k with
  | nil => intro s r h; cases h; exact le_refl _
  | cons a ks ih =>
    intro s r h
    cases s with
    | nil => cases h
    | cons c cs =>
      rw [dropPre] at h
      split_ifs at h
      exact le_trans (ih h) (Nat.le_succ _)

lemma matchParamAt_length {key s r : List Char} (h : matchParamAt key s = some r) :
    r.length ≤ s.length := by
  rw [matchParamAt] at h
  cases hd : dropPre key s with
  | none => rw [hd] at h; cases h
  | some rest =>
    rw [hd] at h
    simp only [] at h
    split_ifs at h
    cases h
    exact le_trans (le_trans (List.length_drop _ _ ▸ Nat.sub_le _ _) (le_refl _))
      (dropPre_length hd)

lemma digit_ne_special {c : Char} (h : Char.isDigit c) :
    c ≠ '?' ∧ c ≠ '&' ∧ c ≠ '=' := by
  refine ⟨?_, ?_, ?_⟩ <;> rintro rfl <;> simp [Char.isDigit] at h

lemma subParamF_nil (key : List Char) : ∀ f, subParamF key f [] = [] := by
  intro f
  cases f <;> rfl

lemma subParamF_congr (key : List Char) :
    ∀ f1 f2 s, s.length ≤ f1 → s.length ≤ f2 →
      subParamF key f1 s = subParamF key f2 s := by
  intro f1
  induction f1 with
  | zero =>
    intro f2 s h1 _
    have : s = [] := List.length_eq_zero.mp (by omega)
    subst this
    rw [subParamF_nil, subParamF_nil]
  | succ f ih =>
    intro f2 s h1 h2
    cases s with
    | nil => rw [subParamF_nil, subParamF_nil]
    | cons c cs =>
      cases f2 with
      | zero => simp at h2
      | succ g =>
        rw [subParamF, subParamF]
        simp only [List.length_cons] at h1 h2
        split_ifs with hsep
        · cases hm : matchParamAt key cs with
          | some rest =>
            have hr := matchParamAt_length hm
            exact ih g rest (by omega) (by omega)
          | none =>
            rw [ih g cs (by omega) (by omega)]
        · rw [ih g cs (by omega) (by omega)]

lemma subParam_nil (key : List Char) : subParam key [] = [] := rfl

lemma subParam_cons_plain {c : Char} (key cs : List Char)
    (h1 : c ≠ '?') (h2 : c ≠ '&') :
    subParam key (c :: cs) = c :: subParam key cs := by
  rw [subParam, List.length_cons, subParamF, if_neg (by tauto)]
  rfl

lemma subParam_cons_hit {c : Char} {key cs rest : List Char}
    (hsep : c = '?' ∨ c = '&') (hm : matchParamAt key cs = some rest) :
    subParam key (c :: cs) = subParam key rest := by
  rw [subParam, List.length_cons, subParamF, if_pos hsep, hm]
  exact subParamF_congr key _ _ rest (matchParamAt_length hm) (le_refl _)

lemma subParam_cons_miss {c : Char} {key cs : List Char}
    (hsep : c = '?' ∨ c = '&') (hm : matchParamAt key cs = none) :
    subParam key (c :: cs) = c :: subParam key cs := by
  rw [subParam, List.length_cons, subParamF, if_pos hsep, hm]
  rfl

lemma subParam_append_plain {s : List Char} (key : List Char)
    (h : ∀ c ∈ s, c ≠ '?' ∧ c ≠ '&') (rest : List Char) :
    subParam key (s ++ rest) = s ++ subParam key rest := by
  induction s with
  | nil => rfl
  | cons c cs ih =>
    have hc := h c (by simp)
    rw [List.cons_append, subParam_cons_plain key _ hc.1 hc.2,
      ih (fun x hx => h x (by simp [hx])), List.cons_append]

lemma subParam_plain_id {s : List Char} (key : List Char)
    (h : ∀ c ∈ s, c ≠ '?' ∧ c ≠ '&') : subParam key s = s := by
  have h2 := subParam_append_plain key h []
  rw [subParam_nil, List.append_nil] at h2
  exact h2

lemma dropPre_self_append (k s : List Char) : dropPre k (k ++ s) = some s := by
  induction k with
  | nil => rfl
  | cons c cs ih =>
    rw [List.cons_append, dropPre, if_pos rfl]
    exact ih

lemma dropPre_keys_ne :
    ∀ {a b : List Char}, '=' ∉ a → (∀ c ∈ b, c ≠ '=') → a ≠ b → ∀ x y,
      dropPre (a ++ '=' :: x) (b ++ '=' :: y) = none := by
  intro a
  induction a with
  | nil =>
    intro b _ hb hne x y
    cases b with
    | nil => exact absurd rfl hne
    | cons c bs =>
      rw [List.nil_append, List.cons_append, dropPre,
        if_neg (fun h => hb c (by simp) h)]
  | cons d as ih =>
    intro b ha hb hne x y
    cases b with
    | nil =>
      rw [List.cons_append, List.nil_append, dropPre,
        if_neg (fun h => ha (by rw [h]; simp))]
    | cons c bs =>
      rw [List.cons_append, List.cons_append, dropPre]
      by_cases hcd : c = d
      · rw [if_pos hcd]
        exact ih (fun h => ha (by simp [h])) (fun e he => hb e (by simp [he]))
          (fun h => hne (by rw [hcd, h])) x y
      · rw [if_neg hcd]

lemma takeWhile_all_append {p : Char → Bool} {xs : List Char}
    (h : ∀ x ∈ xs, p x = true) (ys : List Char) :
    (xs ++ ys).takeWhile p = xs ++ ys.takeWhile p := by
  induction xs with
  | nil => rfl
  | cons c cs ih =>
    rw [List.cons_append, List.takeWhile_cons, h c (by simp),
      ih (fun x hx => h x (by simp [hx]))]
    simp

lemma takeWhile_digits_nil {ys : List Char} (h : headNotDigit ys) :
    ys.takeWhile Char.isDigit = [] := by
  cases ys with
  | nil => rfl
  | cons c cs =>
    rw [List.takeWhile_cons, h]
    simp

lemma matchParamAt_hit {kk v rest : List Char} (hv : v ≠ [])
    (hd : ∀ c ∈ v, Char.isDigit c) (hrest : headNotDigit rest) :
    matchParamAt kk (kk ++ (v ++ rest)) = some rest := by
  rw [matchParamAt, dropPre_self_append]
  simp only [takeWhile_all_append (fun x hx => hd x hx) rest,
    takeWhile_digits_nil hrest, List.append_nil]
  rw [if_neg (by simp [hv]), List.drop_left]

lemma matchParamAt_miss {kname : List Char} {p : QParam} (hk : '=' ∉ kname)
    (hp : goodParam p) (hne : p.key ≠ kname) (rest : List Char) :
    matchParamAt (kname ++ ['=']) (renderP p ++ rest) = none := by
  have hshape : renderP p ++ rest = p.key ++ '=' :: (p.val ++ rest) := by
    rw [renderP]
    simp
  have hdrop : dropPre (kname ++ ['=']) (p.key ++ '=' :: (p.val ++ rest)) = none := by
    have heq : kname ++ ['='] = kname ++ '=' :: ([] : List Char) := rfl
    rw [heq]
    exact dropPre_keys_ne hk (fun c hc => (hp.1.2 c hc).2.2) (fun h => hne h.symm) _ _
  rw [matchParamAt, hshape, hdrop]

lemma headNotDigit_chunks {cs : List (Char × QParam)}
    (h : ∀ x ∈ cs, goodChunk x) : headNotDigit (renderChunks cs) := by
  cases cs with
  | nil => trivial
  | cons x rest =>
    obtain ⟨sep, p⟩ := x
    have hx := (h (sep, p) (by simp)).1
    rw [renderChunks]
    rcases hx with h1 | h1 <;> subst h1 <;> exact rfl

lemma renderP_chars {p : QParam} (hp : goodParam p) :
    ∀ c ∈ renderP p, c ≠ '?' ∧ c ≠ '&' := by
  intro c hc
  rw [renderP] at hc
  rcases List.mem_append.mp hc with hk | hv
  · exact ⟨(hp.1.2 c hk).1, (hp.1.2 c hk).2.1⟩
  · rcases List.mem_cons.mp hv with he | hv2
    · subst he
      exact ⟨by decide, by decide⟩
    · have := digit_ne_special (hp.2.2 c hv2)
      exact ⟨this.1, this.2.1⟩

/-- One stripping pass of subParam over a rendered chunk list removes
exactly the chunks whose parameter key equals the stripped key name. -/
lemma subParam_chunks {kname : List Char} (hk : '=' ∉ kname) :
    ∀ cs : List (Char × QParam), (∀ x ∈ cs, goodChunk x) →
      subParam (kname ++ ['=']) (renderChunks cs) =
        renderChunks (cs.filter fun x => x.2.key ≠ kname) := by
  intro cs
  induction cs with
  | nil => intro _; rfl
  | cons x rest ih =>
    intro h
    obtain ⟨sep, p⟩ := x
    have hsep := (h (sep, p) (by simp)).1
    have hp := (h (sep, p) (by simp)).2
    have hrest : ∀ y ∈ rest, goodChunk y := fun y hy => h y (by simp [hy])
    rw [renderChunks]
    by_cases hkey : p.key = kname
    · -- dropped chunk
      have hform : renderP p ++ renderChunks rest =
          (kname ++ ['=']) ++ (p.val ++ renderChunks rest) := by
        rw [renderP, hkey]
        simp
      have hm : matchParamAt (kname ++ ['=']) (renderP p ++ renderChunks rest) =
          some (renderChunks rest) := by
        rw [hform]
        exact matchParamAt_hit hp.2.1 hp.2.2 (headNotDigit_chunks hrest)
      rw [subParam_cons_hit hsep hm, ih hrest]
      have : (List.filter (fun x => decide (x.2.key ≠ kname)) ((sep, p) :: rest)) =
          List.filter (fun x => decide (x.2.key ≠ kname)) rest := by
        rw [List.filter_cons]
        simp [hkey]
      rw [this]
    · -- kept chunk
      have hm : matchParamAt (kname ++ ['=']) (renderP p ++ renderChunks rest) = none :=
        matchParamAt_miss hk hp hkey _
      rw [subParam_cons_miss hsep hm,
        subParam_append_plain _ (renderP_chars hp) _, ih hrest]
      have : (List.filter (fun x => decide (x.2.key ≠ kname)) ((sep, p) :: rest)) =
          (sep, p) :: List.filter (fun x => decide (x.2.key ≠ kname)) rest := by
        rw [List.filter_cons]
        simp [hkey]
      rw [this, renderChunks]

lemma renderTemplate_chunks (path : List Char) (ps : List QParam) :
    renderTemplate path ps = path ++ renderChunks (chunksOf ps) := by
  cases ps with
  | nil => simp [renderTemplate, chunksOf, renderChunks]
  | cons p rest => rfl

lemma goodChunk_chunksOf {ps : List QParam} (h : ∀ p ∈ ps, goodParam p) :
    ∀ x ∈ chunksOf ps, goodChunk x := by
  intro x hx
  cases ps with
  | nil => cases hx
  | cons p rest =>
    rw [chunksOf] at hx
    rcases List.mem_cons.mp hx with he | hm
    · subst he
      exact ⟨Or.inl rfl, h p (by simp)⟩
    · obtain ⟨q, hq, he⟩ := List.mem_map.mp hm
      subst he
      exact ⟨Or.inr rfl, h q (by simp [hq])⟩

lemma stripTrail_of_last {s : List Char}
    (h : ∀ c, s.getLast? = some c → c ≠ '?' ∧ c ≠ '&') : stripTrail s = s := by
  rw [stripTrail]
  cases hl : s.getLast? with
  | none => simp [hl]
  | some c =>
    have hc := h c hl
    simp [hl, hc.1, hc.2]

lemma getLast?_append_right {l2 : List Char} (h : l2 ≠ []) (l1 : List Char) :
    (l1 ++ l2).getLast? = l2.getLast? := by
  induction l1 with
  | nil => rfl
  | cons c cs ih =>
    rw [List.cons_append]
    rw [List.getLast?_cons]
    rw [ih]
    cases l2 with
    | nil => exact absurd rfl h
    | cons d ds => simp [List.getLast?_cons]

lemma renderChunks_last :
    ∀ cs : List (Char × QParam), (∀ x ∈ cs, goodChunk x) → cs ≠ [] →
      ∃ c, (renderChunks cs).getLast? = some c ∧ Char.isDigit c := by
  intro cs
  induction cs with
  | nil => intro _ h; exact absurd rfl h
  | cons x rest ih =>
    intro h _
    obtain ⟨sep, p⟩ := x
    have hp := (h (sep, p) (by simp)).2
    cases hr : rest with
    | nil =>
      subst hr
      obtain ⟨v, vs, hv⟩ : ∃ v vs, p.val = v :: vs := by
        cases hval : p.val with
        | nil => exact absurd hval hp.2.1
        | cons v vs => exact ⟨v, vs, rfl⟩
      refine ⟨p.val.getLast (hp.2.1), ?_, ?_⟩
      · rw [renderChunks, renderChunks, List.append_nil,
          show sep :: renderP p = [sep] ++ renderP p from rfl,
          getLast?_append_right (by rw [renderP]; simp) [sep],
          renderP,
          getLast?_append_right (by simp) p.key]
        rw [show ('=' :: p.val) = ['='] ++ p.val from rfl,
          getLast?_append_right hp.2.1 ['=']]
        exact List.getLast?_eq_getLast _ hp.2.1
      · exact hp.2.2 _ (List.getLast_mem hp.2.1)
    | cons y ys =>
      have hrg : ∀ z ∈ rest, goodChunk z := fun z hz => h z (by simp [hz])
      obtain ⟨c, hc1, hc2⟩ := ih hrg (by rw [hr]; simp)
      refine ⟨c, ?_, hc2⟩
      rw [← hr]
      have hne : renderChunks rest ≠ [] := by
        rw [hr]
        obtain ⟨sep2, q⟩ := y
        rw [renderChunks]
        simp
      rw [renderChunks,
        show sep :: (renderP p ++ renderChunks rest) =
          (sep :: renderP p) ++ renderChunks rest by simp,
        getLast?_append_right hne]
      exact hc1

lemma digitChar_digit {k : ℕ} (h : k < 10) : Char.isDigit (digitChar k) = true := by
  interval_cases k <;> decide

lemma natToCharsAux_digits :
    ∀ (fuel n : ℕ) (acc : List Char), (∀ c ∈ acc, Char.isDigit c) →
      ∀ c ∈ natToCharsAux fuel n acc, Char.isDigit c := by
  intro fuel
  induction fuel with
  | zero => intro n acc h; exact h
  | succ f ih =>
    intro n acc h c hc
    rw [natToCharsAux] at hc
    split_ifs at hc with h0
    · exact h c hc
    · refine ih (n / 10) _ ?_ c hc
      intro d hd
      rcases List.mem_cons.mp hd with he | hm
      · subst he
        exact digitChar_digit (Nat.mod_lt _ (by norm_num))
      · exact h d hm

lemma natToChars_digits (n : ℕ) : ∀ c ∈ natToChars n, Char.isDigit c := by
  rw [natToChars]
  split_ifs
  · intro c hc
    simp at hc
    subst hc
    decide
  · exact natToCharsAux_digits n n [] (by simp)

lemma natToCharsAux_shape :
    ∀ (fuel n : ℕ) (acc : List Char),
      ∃ pre, natToCharsAux fuel n acc = pre ++ acc ∧ (n ≠ 0 → fuel ≠ 0 → pre ≠ []) := by
  intro fuel
  induction fuel with
  | zero => intro n acc; exact ⟨[], rfl, fun _ h => absurd rfl h⟩
  | succ f ih =>
    intro n acc
    by_cases h0 : n = 0
    · refine ⟨[], ?_, fun hn _ => absurd h0 hn⟩
      rw [natToCharsAux, if_pos h0]
      rfl
    · obtain ⟨pre, hp, _⟩ := ih (n / 10) (digitChar (n % 10) :: acc)
      refine ⟨pre ++ [digitChar (n % 10)], ?_, by simp⟩
      rw [natToCharsAux, if_neg h0, hp]
      simp

lemma natToChars_ne_nil (n : ℕ) : natToChars n ≠ [] := by
  rw [natToChars]
  split_ifs with h
  · simp
  · obtain ⟨pre, hp, hne⟩ := natToCharsAux_shape n n []
    rw [hp, List.append_nil]
    exact hne h (by omega)

lemma goodParam_off (off : ℕ) : goodParam ⟨offsetName, natToChars off⟩ :=
  ⟨⟨by show offsetName ≠ []; decide,
    by show ∀ c ∈ offsetName, c ≠ '?' ∧ c ≠ '&' ∧ c ≠ '='; decide⟩,
   natToChars_ne_nil off, natToChars_digits off⟩

lemma goodParam_len : goodParam ⟨lengthName, natToChars 100⟩ :=
  ⟨⟨by show lengthName ≠ []; decide,
    by show ∀ c ∈ lengthName, c ≠ '?' ∧ c ≠ '&' ∧ c ≠ '='; decide⟩,
   natToChars_ne_nil 100, natToChars_digits 100⟩

lemma isPre_q_false {p' : List Char} {c : Char} (hc : c ≠ '?') (cs : List Char) :
    isPre ('?' :: p') (c :: cs) = false := by
  rw [isPre, decide_eq_false fun h => hc h.symm, Bool.false_and]

lemma replaceFirst_free {p' rep : List Char} :
    ∀ {s : List Char}, (∀ c ∈ s, c ≠ '?') → replaceFirst ('?' :: p') rep s = s := by
  intro s
  induction s with
  | nil => intro _; rfl
  | cons c cs ih =>
    intro h
    rw [replaceFirst, if_neg (by rw [isPre_q_false (h c (by simp))]; simp),
      ih fun x hx => h x (by simp [hx])]

lemma replaceFirst_skip {p' rep : List Char} :
    ∀ {s1 : List Char} (s2 : List Char), (∀ c ∈ s1, c ≠ '?') →
      replaceFirst ('?' :: p') rep (s1 ++ s2) = s1 ++ replaceFirst ('?' :: p') rep s2 := by
  intro s1
  induction s1 with
  | nil => intro s2 _; rfl
  | cons c cs ih =>
    intro s2 h
    rw [List.cons_append, replaceFirst,
      if_neg (by rw [isPre_q_false (h c (by simp))]; simp),
      ih s2 fun x hx => h x (by simp [hx]), List.cons_append]

lemma contains_eq_false_of {s : List Char} (h : ∀ c ∈ s, c ≠ '?') :
    s.contains '?' = false := by
  induction s with
  | nil => rfl
  | cons c cs ih =>
    have hc : ('?' == c) = false :=
      beq_eq_false_iff_ne.mpr fun he => h c (by simp) he.symm
    rw [List.contains_cons, hc, Bool.false_or]
    exact ih fun x hx => h x (by simp [hx])

lemma contains_eq_true_of {s : List Char} (h : '?' ∈ s) : s.contains '?' = true := by
  induction s with
  | nil => cases h
  | cons c cs ih =>
    rw [List.contains_cons]
    rcases List.mem_cons.mp h with he | hm
    · subst he
      simp
    · rw [ih hm]
      simp

lemma splitAmp_free : ∀ {A : List Char}, (∀ c ∈ A, c ≠ '&') → splitAmp A = [A] := by
  intro A
  induction A with
  | nil => intro _; rfl
  | cons c cs ih =>
    intro h
    rw [splitAmp, if_neg (h c (by simp)), ih fun x hx => h x (by simp [hx])]

lemma splitAmp_sep {A : List Char} (h : ∀ c ∈ A, c ≠ '&') (B : List Char) :
    splitAmp (A ++ '&' :: B) = A :: splitAmp B := by
  induction A with
  | nil => rw [List.nil_append, splitAmp, if_pos rfl]
  | cons c cs ih =>
    rw [List.cons_append, splitAmp, if_neg (h c (by simp)),
      ih fun x hx => h x (by simp [hx])]

lemma count_eq_zero_of {s : List Char} {a : Char} (h : ∀ c ∈ s, c ≠ a) :
    s.count a = 0 :=
  List.count_eq_zero.mpr fun hm => h a hm rfl

lemma renderP_ne_nil (p : QParam) : renderP p ≠ [] := by
  rw [renderP]
  intro h
  have := congrArg List.length h
  simp at this

lemma renderP_count_eq {p : QParam} (hp : goodParam p) : (renderP p).count '=' = 1 := by
  have hk : (p.key).count '=' = 0 := count_eq_zero_of fun c hc => (hp.1.2 c hc).2.2
  have hv : (p.val).count '=' = 0 :=
    count_eq_zero_of fun c hc => (digit_ne_special (hp.2.2 c hc)).2.2
  rw [renderP, List.count_append, hk, List.count_cons, hv]
  simp

lemma segsOk_single {p : QParam} (hp : goodParam p) : segsOk (renderP p) = true := by
  rw [segsOk, splitAmp_free fun c hc => (renderP_chars hp c hc).2]
  simp [renderP_ne_nil p, renderP_count_eq hp]

lemma segsOk_sep {A B : List Char} (hA : ∀ c ∈ A, c ≠ '&') (hA1 : A ≠ [])
    (hA2 : A.count '=' = 1) (hB : segsOk B = true) : segsOk (A ++ '&' :: B) = true := by
  rw [segsOk, splitAmp_sep hA, List.all_cons]
  rw [segsOk] at hB
  simp [hA1, hA2, hB]

lemma segsOk_params :
    ∀ (ps : List QParam) (A : List Char), (∀ p ∈ ps, goodParam p) →
      (∀ c ∈ A, c ≠ '&') → A ≠ [] → A.count '=' = 1 →
      ∀ X, segsOk X = true →
      segsOk (A ++ (renderChunks (ps.map fun q => ('&', q)) ++ '&' :: X)) = true := by
  intro ps
  induction ps with
  | nil =>
    intro A _ hA hA1 hA2 X hX
    rw [List.map_nil, show renderChunks [] = [] from rfl, List.nil_append]
    exact segsOk_sep hA hA1 hA2 hX
  | cons q rest ih =>
    intro A hgood hA hA1 hA2 X hX
    rw [List.map_cons, renderChunks]
    have hq := hgood q (by simp)
    have hrest : ∀ p ∈ rest, goodParam p := fun p hp => hgood p (by simp [hp])
    have hstep := ih (renderP q) hrest (fun c hc => (renderP_chars hq c hc).2)
      (renderP_ne_nil q) (renderP_count_eq hq) X hX
    have hshape : A ++ ('&' :: (renderP q ++ renderChunks (rest.map fun q => ('&', q))) ++ '&' :: X) =
        A ++ '&' :: (renderP q ++ (renderChunks (rest.map fun q => ('&', q)) ++ '&' :: X)) := by
      simp
    rw [hshape]
    exact segsOk_sep hA hA1 hA2 hstep

lemma takeWhile_bne_append {path qs : List Char} (h : ∀ c ∈ path, c ≠ '?') :
    (path ++ '?' :: qs).takeWhile (· != '?') = path := by
  induction path with
  | nil => simp
  | cons c cs ih =>
    rw [List.cons_append, List.takeWhile_cons]
    have : (c != '?') = true := by simp [h c (by simp)]
    rw [this, if_pos rfl, ih fun x hx => h x (by simp [hx])]

lemma dropWhile_bne_append {path qs : List Char} (h : ∀ c ∈ path, c ≠ '?') :
    (path ++ '?' :: qs).dropWhile (· != '?') = '?' :: qs := by
  induction path with
  | nil => simp
  | cons c cs ih =>
    rw [List.cons_append, List.dropWhile_cons]
    have : (c != '?') = true := by simp [h c (by simp)]
    rw [this]
    simp only [if_true]
    exact ih fun x hx => h x (by simp [hx])

lemma wf_parts {path qs : List Char} (hpath : goodPath path) (hq : ∀ c ∈ qs, c ≠ '?')
    (hne : qs ≠ []) (hseg : segsOk qs = true) :
    wellFormedUrl (path ++ '?' :: qs) = true := by
  have hp1 : ∀ c ∈ path, c ≠ '?' := fun c hc => (hpath c hc).1
  have h1 : (path ++ '?' :: qs).count '?' = 1 := by
    rw [List.count_append, count_eq_zero_of hp1, List.count_cons,
      count_eq_zero_of hq]
    simp
  rw [wellFormedUrl, h1, takeWhile_bne_append hp1, dropWhile_bne_append hp1]
  have h2 : path.count '&' = 0 := count_eq_zero_of fun c hc => (hpath c hc).2
  simp [h2, hne, hseg]

lemma suffix_no_q (off : ℕ) :
    ∀ c ∈ offsetKey ++ (natToChars off ++ '&' :: (lengthKey ++ natToChars 100)), c ≠ '?' := by
  intro c hc
  simp only [List.mem_append, List.mem_cons] at hc
  rcases hc with h | h | h | h | h
  · revert h
    revert c
    decide
  · exact (digit_ne_special (natToChars_digits off c h)).1
  · subst h
    decide
  · revert h
    revert c
    decide
  · exact (digit_ne_special (natToChars_digits 100 c h)).1

lemma suffix_eq (off : ℕ) :
    offsetKey ++ (natToChars off ++ '&' :: (lengthKey ++ natToChars 100)) =
      renderP ⟨offsetName, natToChars off⟩ ++ '&' :: renderP ⟨lengthName, natToChars 100⟩ := by
  rw [renderP, renderP]
  rfl

lemma segsOk_suffix (off : ℕ) :
    segsOk (offsetKey ++ (natToChars off ++ '&' :: (lengthKey ++ natToChars 100))) = true := by
  rw [suffix_eq]
  exact segsOk_sep (fun c hc => (renderP_chars (goodParam_off off) c hc).2)
    (renderP_ne_nil _) (renderP_count_eq (goodParam_off off))
    (segsOk_single goodParam_len)

lemma pageUrl_with_q {base : List Char} (h : base.contains '?' = true) (off : ℕ) :
    pageUrl base off =
      base ++ '&' :: (offsetKey ++ (natToChars off ++ '&' :: (lengthKey ++ natToChars 100))) := by
  have hpc : (if base.contains '?' then '&' else '?') = '&' := by rw [h]; rfl
  simp only [pageUrl]
  rw [hpc, if_neg (by simp)]
  simp

lemma pageUrl_no_q {base : List Char} (h : base.contains '?' = false)
    (hbase : ∀ c ∈ base, c ≠ '?') (off : ℕ) :
    pageUrl base off =
      base ++ '?' :: (offsetKey ++ (natToChars off ++ '&' :: (lengthKey ++ natToChars 100))) := by
  have hpc : (if base.contains '?' then '&' else '?') = '?' := by rw [h]; rfl
  have hfree : ∀ c ∈ offsetKey ++ natToChars off ++ '&' :: (lengthKey ++ natToChars 100),
      c ≠ '?' := by
    intro c hc
    apply suffix_no_q off
    simpa [List.append_assoc] using hc
  simp only [pageUrl]
  rw [hpc]
  split_ifs with hcond
  · rw [replaceFirst_skip _ hbase, replaceFirst,
      if_neg (by simp [isPre, offsetKey, lengthKey, List.cons_append]),
      replaceFirst_free hfree]
    simp
  · simp

/-- Any template that is a bare path (no special characters) paginates to a
well-formed URL. -/
lemma pageUrl_wf_plain {base : List Char} (hbase : goodPath base) (off : ℕ) :
    wellFormedUrl (pageUrl base off) = true := by
  have h1 : ∀ c ∈ base, c ≠ '?' := fun c hc => (hbase c hc).1
  rw [pageUrl_no_q (contains_eq_false_of h1) h1 off]
  apply wf_parts hbase (suffix_no_q off) (by simp [offsetKey]) (segsOk_suffix off)

lemma offsetKey_decomp : offsetKey = offsetName ++ ['='] := rfl

lemma lengthKey_decomp : lengthKey = lengthName ++ ['='] := rfl

lemma chunksOf_mem {ps : List QParam} {x : Char × QParam} (h : x ∈ chunksOf ps) :
    x.2 ∈ ps := by
  cases ps with
  | nil => cases h
  | cons p rest =>
    rw [chunksOf] at h
    rcases List.mem_cons.mp h with he | hm
    · subst he
      simp
    · obtain ⟨q, hq, he⟩ := List.mem_map.mp hm
      rw [← he]
      simp [hq]

lemma mem_of_getLast?Chars : ∀ {s : List Char} {c : Char}, s.getLast? = some c → c ∈ s := by
  intro s
  induction s with
  | nil => intro c h; cases h
  | cons a t ih =>
    intro c h
    cases t with
    | nil =>
      simp at h
      simp [h]
    | cons b t2 =>
      rw [List.getLast?_cons_cons] at h
      exact List.mem_cons.mpr (Or.inr (ih h))

lemma stripTrail_plain {path : List Char} (hpath : goodPath path) :
    stripTrail path = path :=
  stripTrail_of_last fun c hc => hpath c (mem_of_getLast?Chars hc)

lemma chunks_no_q :
    ∀ (qs : List QParam), (∀ q ∈ qs, goodParam q) →
      ∀ c ∈ renderChunks (qs.map fun q => ('&', q)), c ≠ '?' := by
  intro qs
  induction qs with
  | nil => intro _ c hc; cases hc
  | cons q rest ih =>
    intro h c hc
    rw [List.map_cons, renderChunks] at hc
    rcases List.mem_cons.mp hc with he | hm
    · subst he; decide
    · rcases List.mem_append.mp hm with h1 | h1
      · exact (renderP_chars (h q (by simp)) c h1).1
      · exact ih (fun x hx => h x (by simp [hx])) c h1

lemma buildBase_strip {path : List Char} {ps : List QParam} (hpath : goodPath path)
    (hps : ∀ p ∈ ps, goodParam p) :
    buildBase (renderTemplate path ps) =
      stripTrail (path ++ renderChunks
        (((chunksOf ps).filter fun x => x.2.key ≠ offsetName).filter
          fun x => x.2.key ≠ lengthName)) := by
  rw [buildBase, renderTemplate_chunks]
  have hg := goodChunk_chunksOf hps
  rw [offsetKey_decomp, subParam_append_plain _ hpath,
    subParam_chunks (by decide) _ hg]
  have hg1 : ∀ x ∈ (chunksOf ps).filter (fun x => x.2.key ≠ offsetName), goodChunk x :=
    fun x hx => hg x (List.mem_of_mem_filter hx)
  rw [lengthKey_decomp, subParam_append_plain _ hpath,
    subParam_chunks (by decide) _ hg1]

/-- Main positive statement for the pagination URL construction: a
structured template whose query is empty, or whose first parameter survives
the stripping, or all of whose parameters are stripped, paginates to a
well-formed URL for every page offset. -/
lemma pageUrl_template_wf {path : List Char} {ps : List QParam} (off : ℕ)
    (hpath : goodPath path) (hps : ∀ p ∈ ps, goodParam p)
    (hsurv : ps = [] ∨
      (∃ p rest, ps = p :: rest ∧ p.key ≠ offsetName ∧ p.key ≠ lengthName) ∨
      (∀ p ∈ ps, p.key = offsetName ∨ p.key = lengthName)) :
    wellFormedUrl (pageUrl (buildBase (renderTemplate path ps)) off) = true := by
  rcases hsurv with hnil | hfirst | hall
  · subst hnil
    rw [renderTemplate]
    have hbb : buildBase path = path := by
      rw [buildBase, subParam_plain_id _ hpath, subParam_plain_id _ hpath,
        stripTrail_plain hpath]
    rw [hbb]
    exact pageUrl_wf_plain hpath off
  · obtain ⟨p, rest, hps_eq, hk1, hk2⟩ := hfirst
    subst hps_eq
    have hp : goodParam p := hps p (by simp)
    have hrest : ∀ q ∈ rest, goodParam q := fun q hq => hps q (by simp [hq])
    rw [buildBase_strip hpath hps]
    have hfil : (((chunksOf (p :: rest)).filter fun x => x.2.key ≠ offsetName).filter
        fun x => x.2.key ≠ lengthName) =
        ('?', p) :: (((rest.filter fun q => q.key ≠ offsetName).filter
          fun q => q.key ≠ lengthName).map fun q => ('&', q)) := by
      rw [chunksOf, List.filter_cons, if_pos (by simp [hk1]), List.filter_cons,
        if_pos (by simp [hk2]), List.filter_map, List.filter_map]
      simp [Function.comp]
    rw [hfil]
    set kept := ((rest.filter fun q => q.key ≠ offsetName).filter
      fun q => q.key ≠ lengthName) with hkept
    have hkeptgood : ∀ q ∈ kept, goodParam q := by
      intro q hq
      rw [hkept] at hq
      exact hrest q (List.mem_of_mem_filter (List.mem_of_mem_filter hq))
    have hgood2 : ∀ x ∈ ('?', p) :: (kept.map fun q => ('&', q)), goodChunk x := by
      intro x hx
      rcases List.mem_cons.mp hx with he | hm
      · subst he
        exact ⟨Or.inl rfl, hp⟩
      · obtain ⟨q, hq, he⟩ := List.mem_map.mp hm
        rw [← he]
        exact ⟨Or.inr rfl, hkeptgood q hq⟩
    have hRCne : renderChunks (('?', p) :: (kept.map fun q => ('&', q))) ≠ [] := by
      rw [renderChunks]
      simp
    obtain ⟨d, hd1, hd2⟩ := renderChunks_last _ hgood2 (by simp)
    have hstrip : stripTrail (path ++ renderChunks
        (('?', p) :: (kept.map fun q => ('&', q)))) =
        path ++ renderChunks (('?', p) :: (kept.map fun q => ('&', q))) := by
      apply stripTrail_of_last
      intro c hc
      rw [getLast?_append_right hRCne] at hc
      rw [hd1] at hc
      cases hc
      exact ⟨(digit_ne_special hd2).1, (digit_ne_special hd2).2.1⟩
    rw [hstrip]
    have hqmem : '?' ∈ path ++ renderChunks (('?', p) :: (kept.map fun q => ('&', q))) := by
      rw [renderChunks]
      simp
    rw [pageUrl_with_q (contains_eq_true_of hqmem) off]
    have hshape : (path ++ renderChunks (('?', p) :: (kept.map fun q => ('&', q)))) ++
        '&' :: (offsetKey ++ (natToChars off ++ '&' :: (lengthKey ++ natToChars 100))) =
        path ++ '?' :: (renderP p ++ (renderChunks (kept.map fun q => ('&', q)) ++
          '&' :: (offsetKey ++ (natToChars off ++ '&' :: (lengthKey ++ natToChars 100))))) := by
      rw [renderChunks]
      simp
    rw [hshape]
    apply wf_parts hpath
    · intro c hc
      rcases List.mem_append.mp hc with h1 | h1
      · exact (renderP_chars hp c h1).1
      · rcases List.mem_append.mp h1 with h2 | h2
        · exact chunks_no_q kept hkeptgood c h2
        · rcases List.mem_cons.mp h2 with h3 | h3
          · subst h3; decide
          · exact suffix_no_q off c h3
    · simp [renderP]
    · exact segsOk_params kept (renderP p) hkeptgood
        (fun c hc => (renderP_chars hp c hc).2) (renderP_ne_nil p)
        (renderP_count_eq hp) _ (segsOk_suffix off)
  · rw [buildBase_strip hpath hps]
    have hfil : (((chunksOf ps).filter fun x => x.2.key ≠ offsetName).filter
        fun x => x.2.key ≠ lengthName) = [] := by
      rw [List.filter_eq_nil]
      intro x hx
      have hx1 := List.mem_filter.mp hx
      have hxin := chunksOf_mem hx1.1
      have hxo : x.2.key ≠ offsetName := of_decide_eq_true hx1.2
      rcases hall x.2 hxin with h1 | h1
      · exact absurd h1 hxo
      · simp [h1]
    rw [hfil, show renderChunks [] = [] from rfl, List.append_nil, stripTrail_plain hpath]
    exact pageUrl_wf_plain hpath off

lemma points_val_1000 : calculate_points_for_rank 1000 = 1000 := by
  have h1000 : pointsTier 1000 = 3 := pointsTier_eq_of (by norm_num) (by norm_num) (by norm_num)
  have hraw : pointsRaw 1000 = 1000 := by
    rw [pointsRaw, h1000, if_neg (by norm_num)]
    norm_num
  rw [calculate_points_for_rank, if_neg (by norm_num),
    show (1000 : ℤ).toNat = 1000 from rfl, hraw,
    round2_eq_of (z := 100000) (by norm_num) (by norm_num)]
  norm_num

lemma setPlayer_maps (db : DB) (pid : String) (p : PlayerRow) :
    (db.setPlayer pid p).maps = db.maps := rfl

lemma setPlayer_records (db : DB) (pid : String) (p : PlayerRow) :
    (db.setPlayer pid p).records = db.records := rfl

lemma setRecord_maps (db : DB) (uid pid : String) (r : RecordRow) :
    (db.setRecord uid pid r).maps = db.maps := rfl

lemma setRecord_players (db : DB) (uid pid : String) (r : RecordRow) :
    (db.setRecord uid pid r).players = db.players := rfl

lemma addNewlyAdded_wrs (sess : Session) (nm : String) :
    (addNewlyAdded sess nm).new_wrs = sess.new_wrs := by
  rw [addNewlyAdded]
  split_ifs <;> rfl

lemma addNewlyAdded_pbs (sess : Session) (nm : String) :
    (addNewlyAdded sess nm).new_pbs = sess.new_pbs := by
  rw [addNewlyAdded]
  split_ifs <;> rfl

lemma addNewlyAdded_changes (sess : Session) (nm : String) :
    (addNewlyAdded sess nm).player_name_changes = sess.player_name_changes := by
  rw [addNewlyAdded]
  split_ifs <;> rfl

lemma addNewlyAdded_newmap (sess : Session) (nm : String) :
    (addNewlyAdded sess nm).new_players_on_map = sess.new_players_on_map := by
  rw [addNewlyAdded]
  split_ifs <;> rfl

lemma addNameChange_wrs (sess : Session) (pid o n : String) :
    (addNameChange sess pid o n).new_wrs = sess.new_wrs := by
  rw [addNameChange]
  split_ifs <;> rfl

lemma addNameChange_pbs (sess : Session) (pid o n : String) :
    (addNameChange sess pid o n).new_pbs = sess.new_pbs := by
  rw [addNameChange]
  split_ifs <;> rfl

lemma addNameChange_newmap (sess : Session) (pid o n : String) :
    (addNameChange sess pid o n).new_players_on_map = sess.new_players_on_map := by
  rw [addNameChange]
  split_ifs <;> rfl

lemma rowStep_maps (uid mname t : String) (rank : ℕ) (r : Row) (db : DB) (sess : Session) :
    (rowStep uid mname t rank r db sess).1.maps = db.maps := by
  rw [rowStep]
  rcases h1 : truthyId r.playerId with _ | pid
  · rfl
  · rcases h2 : db.players pid with _ | pl <;>
      simp only [h2] <;>
      rcases h3 : db.records uid pid with _ | rec <;>
      simp only [setPlayer_records, h3] <;>
      first
        | (simp only [setRecord_maps, setPlayer_maps])
        | (split_ifs <;> simp only [setRecord_maps, setPlayer_maps])

lemma rowStep_new_wrs (uid mname t : String) (rank : ℕ) (r : Row) (db : DB) (sess : Session) :
    (rowStep uid mname t rank r db sess).2.new_wrs = sess.new_wrs := by
  rw [rowStep]
  rcases h1 : truthyId r.playerId with _ | pid
  · rfl
  · rcases h2 : db.players pid with _ | pl <;>
      simp only [h2] <;>
      rcases h3 : db.records uid pid with _ | rec <;>
      simp only [setPlayer_records, h3] <;>
      first
        | (split_ifs <;> simp [addNewlyAdded_wrs, addNameChange_wrs])
        | simp [addNewlyAdded_wrs, addNameChange_wrs]

lemma processRows_maps (uid mname t : String) :
    ∀ (rs : List Row) (rank : ℕ) (db : DB) (sess : Session),
      (processRows uid mname t rs rank db sess).1.maps = db.maps := by
  intro rs
  induction rs with
  | nil => intro rank db sess; rfl
  | cons r rest ih =>
    intro rank db sess
    rw [processRows]
    rw [ih]
    exact rowStep_maps uid mname t rank r db sess

lemma processRows_new_wrs (uid mname t : String) :
    ∀ (rs : List Row) (rank : ℕ) (db : DB) (sess : Session),
      (processRows uid mname t rs rank db sess).2.new_wrs = sess.new_wrs := by
  intro rs
  induction rs with
  | nil => intro rank db sess; rfl
  | cons r rest ih =>
    intro rank db sess
    rw [processRows, ih]
    exact rowStep_new_wrs uid mname t rank r db sess

lemma wrPlayerUpsert_maps (t : String) (r : Row) (db : DB) (sess : Session) :
    (wrPlayerUpsert t r db sess).1.maps = db.maps := by
  rw [wrPlayerUpsert]
  rcases h1 : truthyId r.playerId with _ | pid
  · simp [h1]
  · rcases h2 : db.players pid with _ | pl
    · simp [h1, h2, DB.setPlayer]
    · simp only [h1, h2]
      split_ifs <;> simp [DB.setPlayer]

lemma wrPlayerUpsert_new_wrs (t : String) (r : Row) (db : DB) (sess : Session) :
    (wrPlayerUpsert t r db sess).2.new_wrs = sess.new_wrs := by
  rw [wrPlayerUpsert]
  rcases h1 : truthyId r.playerId with _ | pid
  · simp [h1]
  · rcases h2 : db.players pid with _ | pl
    · simp [h1, h2, addNewlyAdded_wrs]
    · simp only [h1, h2]
      split_ifs <;> simp [addNameChange_wrs]

lemma wrStoredId_congr {db db' : DB} (uid : String) (h : db'.maps = db.maps) :
    wrStoredId db' uid = wrStoredId db uid := by
  rw [wrStoredId, wrStoredId, h]

lemma wrStoredTime_congr {db db' : DB} (uid : String) (h : db'.maps = db.maps) :
    wrStoredTime db' uid = wrStoredTime db uid := by
  rw [wrStoredTime, wrStoredTime, h]

lemma upsertMapRow_wrId (uid url mname : String) (forder : ℕ) (t : String) (pc : Int)
    (db : DB) : wrStoredId (upsertMapRow uid url mname forder t pc db) uid =
      wrStoredId db uid := by
  rw [upsertMapRow]
  rcases h : db.maps uid with _ | m <;>
    simp [wrStoredId, DB.setMap, h]

lemma upsertMapRow_wrTime (uid url mname : String) (forder : ℕ) (t : String) (pc : Int)
    (db : DB) : wrStoredTime (upsertMapRow uid url mname forder t pc db) uid =
      wrStoredTime db uid := by
  rw [upsertMapRow]
  rcases h : db.maps uid with _ | m <;>
    simp [wrStoredTime, DB.setMap, h]

lemma updateMap_pc_wrId (uid : String) (x : Int) (db : DB) :
    wrStoredId (db.updateMap uid fun m => { m with last_playercount := x }) uid =
      wrStoredId db uid := by
  rw [DB.updateMap, wrStoredId, wrStoredId]
  simp only [if_pos rfl]
  rcases h : db.maps uid with _ | m <;> simp [h]

lemma updateMap_pc_wrTime (uid : String) (x : Int) (db : DB) :
    wrStoredTime (db.updateMap uid fun m => { m with last_playercount := x }) uid =
      wrStoredTime db uid := by
  rw [DB.updateMap, wrStoredTime, wrStoredTime]
  simp only [if_pos rfl]
  rcases h : db.maps uid with _ | m <;> simp [h]

lemma wrCompare_empty_some (uid mname t : String) (db : DB) (sess : Session)
    (h : (wrStoredId db uid).isSome) :
    wrCompare uid mname t [] db sess =
      (db.updateMap uid fun m =>
        { m with
          wr_player_id := none
          wr_time_ms := none
          wr_game_timestamp := none
          wr_script_recorded_at := some t
          is_new_wr_since_last_fetch := true },
       { sess with new_wrs := sess.new_wrs ++
         [(mname, "None (Empty Leaderboard or WR Deleted)", none, wrStoredName db uid,
           wrStoredTime db uid)] }) := by
  rw [wrCompare]
  simp only [List.head?_nil, if_pos h]

lemma wrCompare_empty_none (uid mname t : String) (db : DB) (sess : Session)
    (h : (wrStoredId db uid).isSome = false) :
    wrCompare uid mname t [] db sess = (db, sess) := by
  rw [wrCompare]
  simp only [List.head?_nil]
  rw [if_neg (by simp [h])]

lemma wrCompare_head_diff {r : Row} {pid : String} {tms : Int}
    (uid mname t : String) (rest : List Row) (db : DB) (sess : Session)
    (hpid : truthyId r.playerId = some pid) (htms : r.time = some tms)
    (hdiff : wrStoredId db uid ≠ some pid ∨ wrStoredTime db uid ≠ some tms) :
    wrCompare uid mname t (r :: rest) db sess =
      (db.updateMap uid fun m =>
        { m with
          wr_player_id := some pid
          wr_time_ms := some tms
          wr_game_timestamp := r.timestamp
          wr_script_recorded_at := some t
          is_new_wr_since_last_fetch := true },
       { sess with new_wrs := sess.new_wrs ++
         [(mname, r.playerName.getD "UnknownWRPlayer", some tms, wrStoredName db uid,
           wrStoredTime db uid)] }) := by
  rw [wrCompare]
  simp only [List.head?_cons, hpid, htms]
  rw [if_pos hdiff]

lemma wrCompare_head_same {r : Row} {pid : String} {tms : Int}
    (uid mname t : String) (rest : List Row) (db : DB) (sess : Session)
    (hpid : truthyId r.playerId = some pid) (htms : r.time = some tms)
    (hsame : wrStoredId db uid = some pid ∧ wrStoredTime db uid = some tms) :
    wrCompare uid mname t (r :: rest) db sess = (db, sess) := by
  rw [wrCompare]
  simp only [List.head?_cons, hpid, htms]
  rw [if_neg (by simp [hsame.1, hsame.2])]

lemma upsertMapRow_wrName (uid url mname : String) (forder : ℕ) (t : String) (pc : Int)
    (db : DB) : wrStoredName (upsertMapRow uid url mname forder t pc db) uid =
      wrStoredName db uid := by
  rw [upsertMapRow]
  rcases h : db.maps uid with _ | m <;>
    simp [wrStoredName, DB.setMap, h]

lemma updateMap_pc_wrName (uid : String) (x : Int) (db : DB) :
    wrStoredName (db.updateMap uid fun m => { m with last_playercount := x }) uid =
      wrStoredName db uid := by
  rw [DB.updateMap, wrStoredName, wrStoredName]
  simp only [if_pos rfl]
  rcases h : db.maps uid with _ | m <;> simp [h]

lemma upsertMapRow_mapsIsSome (uid url mname : String) (forder : ℕ) (t : String)
    (pc : Int) (db : DB) :
    ((upsertMapRow uid url mname forder t pc db).maps uid).isSome = true := by
  rw [upsertMapRow]
  rcases h : db.maps uid with _ | m <;> simp [DB.setMap, h]

lemma updateMap_mapsIsSome (uid : String) (f : MapRow → MapRow) (db : DB) :
    ((db.updateMap uid f).maps uid).isSome = (db.maps uid).isSome := by
  rw [DB.updateMap]
  simp only [if_pos rfl]
  rcases h : db.maps uid with _ | m <;> simp [h]

lemma updateMap_set_wrId (uid : String) (db : DB) {g : MapRow → MapRow}
    (hm : (db.maps uid).isSome = true) (v : Option String)
    (hg : ∀ m, (g m).wr_player_id = v) :
    wrStoredId (db.updateMap uid g) uid = v := by
  rw [DB.updateMap, wrStoredId]
  simp only [if_pos rfl]
  rcases h : db.maps uid with _ | m
  · rw [h] at hm; cases hm
  · simp [hg]

lemma updateMap_set_wrTime (uid : String) (db : DB) {g : MapRow → MapRow}
    (hm : (db.maps uid).isSome = true) (v : Option Int)
    (hg : ∀ m, (g m).wr_time_ms = v) :
    wrStoredTime (db.updateMap uid g) uid = v := by
  rw [DB.updateMap, wrStoredTime]
  simp only [if_pos rfl]
  rcases h : db.maps uid with _ | m
  · rw [h] at hm; cases hm
  · simp [hg]

lemma mapPhase_wrId (uid url mname : String) (forder : ℕ) (t : String) (pcApi : Int)
    (ffd : Bool) (rowsLen : ℕ) (db : DB) :
    wrStoredId (mapPhase uid url mname forder t pcApi ffd rowsLen db) uid =
      wrStoredId db uid := by
  rw [mapPhase]
  split_ifs with h1 h2 h2 <;>
    simp only [updateMap_pc_wrId, upsertMapRow_wrId]

lemma mapPhase_wrTime (uid url mname : String) (forder : ℕ) (t : String) (pcApi : Int)
    (ffd : Bool) (rowsLen : ℕ) (db : DB) :
    wrStoredTime (mapPhase uid url mname forder t pcApi ffd rowsLen db) uid =
      wrStoredTime db uid := by
  rw [mapPhase]
  split_ifs with h1 h2 h2 <;>
    simp only [updateMap_pc_wrTime, upsertMapRow_wrTime]

lemma mapPhase_wrName (uid url mname : String) (forder : ℕ) (t : String) (pcApi : Int)
    (ffd : Bool) (rowsLen : ℕ) (db : DB) :
    wrStoredName (mapPhase uid url mname forder t pcApi ffd rowsLen db) uid =
      wrStoredName db uid := by
  rw [mapPhase]
  split_ifs with h1 h2 h2 <;>
    simp only [updateMap_pc_wrName, upsertMapRow_wrName]

lemma mapPhase_isSome_of_ffd (uid url mname : String) (forder : ℕ) (t : String)
    (pcApi : Int) (rowsLen : ℕ) (db : DB) :
    ((mapPhase uid url mname forder t pcApi true rowsLen db).maps uid).isSome = true := by
  rw [mapPhase]
  simp only [if_pos rfl]
  split_ifs with h1
  · rw [updateMap_mapsIsSome]
    exact upsertMapRow_mapsIsSome uid url mname forder t pcApi db
  · exact upsertMapRow_mapsIsSome uid url mname forder t pcApi db

lemma wrStoredId_isSome_maps {db : DB} {uid : String}
    (h : (wrStoredId db uid).isSome = true) : (db.maps uid).isSome = true := by
  rw [wrStoredId] at h
  rcases hm : db.maps uid with _ | m
  · rw [hm] at h; cases h
  · rfl

lemma processMap_wr_spec (uid url mname : String) (forder : ℕ) (t : String)
    (rows : List Row) (pcApi : Int) (ffd : Bool) (db : DB) (sess : Session)
    (hrun : ffd = true ∨ rows = [])
    (hhead : ∀ r, rows.head? = some r →
      (truthyId r.playerId).isSome = true ∧ r.time.isSome = true) :
    ((processMap uid url mname forder t rows pcApi ffd db sess).2.new_wrs.length =
        sess.new_wrs.length +
          (match rows.head? with
           | none => if (wrStoredId db uid).isSome = true then 1 else 0
           | some r => if wrStoredId db uid ≠ truthyId r.playerId ∨
               wrStoredTime db uid ≠ r.time then 1 else 0)) ∧
    (wrStoredId (processMap uid url mname forder t rows pcApi ffd db sess).1 uid =
        (match rows.head? with
         | none => none
         | some r => if wrStoredId db uid ≠ truthyId r.playerId ∨
               wrStoredTime db uid ≠ r.time then truthyId r.playerId
             else wrStoredId db uid)) ∧
    (wrStoredTime (processMap uid url mname forder t rows pcApi ffd db sess).1 uid =
        (match rows.head? with
         | none => if (wrStoredId db uid).isSome = true then none else wrStoredTime db uid
         | some r => if wrStoredId db uid ≠ truthyId r.playerId ∨
               wrStoredTime db uid ≠ r.time then r.time
             else wrStoredTime db uid)) ∧
    (rows = [] → (wrStoredId db uid).isSome = true →
      (processMap uid url mname forder t rows pcApi ffd db sess).2.new_wrs =
        sess.new_wrs ++ [(mname, "None (Empty Leaderboard or WR Deleted)", none,
          wrStoredName db uid, wrStoredTime db uid)]) := by
  cases rows with
  | nil =>
    simp only [processMap, List.head?_nil, processRows]
    have hid : wrStoredId (mapPhase uid url mname forder t pcApi ffd (List.length ([] : List Row)) db) uid =
        wrStoredId db uid := mapPhase_wrId uid url mname forder t pcApi ffd _ db
    have htm : wrStoredTime (mapPhase uid url mname forder t pcApi ffd (List.length ([] : List Row)) db) uid =
        wrStoredTime db uid := mapPhase_wrTime uid url mname forder t pcApi ffd _ db
    have hnm : wrStoredName (mapPhase uid url mname forder t pcApi ffd (List.length ([] : List Row)) db) uid =
        wrStoredName db uid := mapPhase_wrName uid url mname forder t pcApi ffd _ db
    by_cases hs : (wrStoredId db uid).isSome = true
    · rw [wrCompare_empty_some uid mname t _ sess (by rw [hid]; exact hs)]
      refine ⟨by simp [hs], ?_, ?_, ?_⟩
      · rw [updateMap_set_wrId uid _ (wrStoredId_isSome_maps (by rw [hid]; exact hs))
          none (fun m => rfl)]
      · rw [updateMap_set_wrTime uid _ (wrStoredId_isSome_maps (by rw [hid]; exact hs))
          none (fun m => rfl)]
        simp [hs]
      · intro _ _
        rw [hnm, htm]
    · have hs' : (wrStoredId db uid).isSome = false := by
        revert hs
        rcases wrStoredId db uid with _ | v <;> simp
      rw [wrCompare_empty_none uid mname t _ sess (by rw [hid]; exact hs')]
      refine ⟨by simp [hs], ?_, ?_, ?_⟩
      · rw [hid]
        revert hs'
        rcases wrStoredId db uid with _ | v <;> simp
      · rw [htm]
        simp [hs]
      · intro _ habs
        exact absurd habs hs
  | cons r rest =>
    have hffd : ffd = true := by
      rcases hrun with h | h
      · exact h
      · cases h
    subst hffd
    obtain ⟨hpidS, htmsS⟩ := hhead r rfl
    obtain ⟨pid, hpid⟩ := Option.isSome_iff_exists.mp hpidS
    obtain ⟨tms, htms⟩ := Option.isSome_iff_exists.mp htmsS
    simp only [processMap, List.head?_cons]
    have h3m : (wrPlayerUpsert t r
        (mapPhase uid url mname forder t pcApi true (List.length (r :: rest)) db) sess).1.maps =
        (mapPhase uid url mname forder t pcApi true (List.length (r :: rest)) db).maps :=
      wrPlayerUpsert_maps t r _ sess
    have h3id : wrStoredId (wrPlayerUpsert t r
        (mapPhase uid url mname forder t pcApi true (List.length (r :: rest)) db) sess).1 uid =
        wrStoredId db uid :=
      (wrStoredId_congr uid h3m).trans (mapPhase_wrId uid url mname forder t pcApi true _ db)
    have h3tm : wrStoredTime (wrPlayerUpsert t r
        (mapPhase uid url mname forder t pcApi true (List.length (r :: rest)) db) sess).1 uid =
        wrStoredTime db uid :=
      (wrStoredTime_congr uid h3m).trans (mapPhase_wrTime uid url mname forder t pcApi true _ db)
    have h3some : ((wrPlayerUpsert t r
        (mapPhase uid url mname forder t pcApi true (List.length (r :: rest)) db) sess).1.maps uid).isSome = true := by
      rw [h3m]
      exact mapPhase_isSome_of_ffd uid url mname forder t pcApi _ db
    have h3wrs := wrPlayerUpsert_new_wrs t r
      (mapPhase uid url mname forder t pcApi true (List.length (r :: rest)) db) sess
    by_cases hc : wrStoredId db uid ≠ some pid ∨ wrStoredTime db uid ≠ some tms
    · rw [wrCompare_head_diff uid mname t rest _ _ hpid htms (by rw [h3id, h3tm]; exact hc)]
      refine ⟨?_, ?_, ?_, fun habs => by cases habs⟩
      · rw [processRows_new_wrs]
        simp [wrPlayerUpsert_new_wrs, hpid, htms, hc]
      · rw [wrStoredId_congr uid (processRows_maps uid mname t _ _ _ _),
          updateMap_set_wrId uid _ h3some (some pid) (fun m => rfl)]
        simp [hpid, htms, hc]
      · rw [wrStoredTime_congr uid (processRows_maps uid mname t _ _ _ _),
          updateMap_set_wrTime uid _ h3some (some tms) (fun m => rfl)]
        simp [hpid, htms, hc]
    · push_neg at hc
      rw [wrCompare_head_same uid mname t rest _ _ hpid htms
        ⟨by rw [h3id]; exact hc.1, by rw [h3tm]; exact hc.2⟩]
      refine ⟨?_, ?_, ?_, fun habs => by cases habs⟩
      · rw [processRows_new_wrs]
        simp [wrPlayerUpsert_new_wrs, hpid, htms, hc.1, hc.2]
      · rw [wrStoredId_congr uid (processRows_maps uid mname t _ _ _ _), h3id]
        simp [hpid, htms, hc.1, hc.2]
      · rw [wrStoredTime_congr uid (processRows_maps uid mname t _ _ _ _), h3tm]
        simp [hpid, htms, hc.1, hc.2]

lemma ite_addNameChange_pbs (sess : Session) (c : Prop) [Decidable c] (p a b : String) :
    (if c then addNameChange sess p a b else sess).new_pbs = sess.new_pbs := by
  split_ifs <;> simp [addNameChange_pbs]

lemma self_ne_append_pb (l : List (String × String × Option Int × Option Int))
    (e : String × String × Option Int × Option Int) : l ≠ l ++ [e] := by
  intro h
  have := congrArg List.length h
  simp at this

lemma rowStep_pb_spec (uid mname t : String) (rank : ℕ) (r : Row) (db : DB) (sess : Session)
    {pid : String} {tnew told : Int} {rec : RecordRow}
    (hpid : truthyId r.playerId = some pid)
    (hrec : db.records uid pid = some rec)
    (htold : rec.time_ms = some told) (htnew : r.time = some tnew) :
    ((rowStep uid mname t rank r db sess).1.records uid pid =
        some { rec with
          time_ms := some tnew
          score := r.score
          position := rank
          game_timestamp := r.timestamp
          script_updated_at := t
          is_pb_since_last_fetch := true } ∧
      (rowStep uid mname t rank r db sess).2.new_pbs =
        sess.new_pbs ++ [(r.playerName.getD "Unknown", mname, some tnew, some told)]) ↔
      (tnew < told ∨ (tnew = told ∧ rank < rec.position)) := by
  rcases h2 : db.players pid with _ | pl <;>
    simp only [rowStep, hpid, h2, setPlayer_records, hrec, htnew, htold] <;>
    split_ifs with hpb hr <;>
    simp only [decide_eq_true_eq] at hpb <;>
    simp [DB.setRecord, addNewlyAdded_pbs, ite_addNameChange_pbs, addNameChange_pbs,
      self_ne_append_pb, hpb]

lemma addNameChange_nodup {sess : Session} (pid o n : String)
    (h : (sess.player_name_changes.map nameKey).Nodup) :
    ((addNameChange sess pid o n).player_name_changes.map nameKey).Nodup := by
  rw [addNameChange]
  split_ifs with hmem
  · exact h
  · have hnot : ∀ c ∈ sess.player_name_changes, ¬(c.1 = pid ∧ c.2.2 = n) := by
      intro c hc hcontra
      exact hmem (List.any_eq_true.mpr ⟨c, hc, by simp [hcontra.1, hcontra.2]⟩)
    simp only [List.map_append, List.map_cons, List.map_nil]
    rw [List.nodup_append]
    refine ⟨h, List.nodup_singleton _, ?_⟩
    intro x hx hx2
    simp only [List.mem_singleton] at hx2
    obtain ⟨c, hc, hck⟩ := List.mem_map.mp hx
    subst hx2
    rw [nameKey] at hck
    exact hnot c hc ⟨congrArg Prod.fst hck, congrArg Prod.snd hck⟩

lemma ite_addNameChange_nodup {sess : Session} (c : Prop) [Decidable c] (p a b : String)
    (h : (sess.player_name_changes.map nameKey).Nodup) :
    (((if c then addNameChange sess p a b else sess)).player_name_changes.map nameKey).Nodup := by
  split_ifs
  · exact addNameChange_nodup p a b h
  · exact h

lemma wrPlayerUpsert_nodup (t : String) (r : Row) (db : DB) {sess : Session}
    (h : (sess.player_name_changes.map nameKey).Nodup) :
    ((wrPlayerUpsert t r db sess).2.player_name_changes.map nameKey).Nodup := by
  rw [wrPlayerUpsert]
  rcases h1 : truthyId r.playerId with _ | pid
  · exact h
  · rcases h2 : db.players pid with _ | pl
    · simp only [h2, addNewlyAdded_changes]
      exact h
    · simp only [h2]
      split_ifs with hname
      · exact addNameChange_nodup _ _ _ h
      · exact h

lemma sessUpdatePbs_changes (s : Session) (v : List (String × String × Option Int × Option Int)) :
    ({ s with new_pbs := v }).player_name_changes = s.player_name_changes := rfl

lemma sessUpdateNpm_changes (s : Session) (v : List (String × String × Option Int)) :
    ({ s with new_players_on_map := v }).player_name_changes = s.player_name_changes := rfl

lemma rowStep_changes_eq (uid mname t : String) (rank : ℕ) (r : Row) (db : DB)
    (sess : Session) :
    (rowStep uid mname t rank r db sess).2.player_name_changes =
      (match truthyId r.playerId with
       | none => sess.player_name_changes
       | some pid =>
         match db.players pid with
         | none => sess.player_name_changes
         | some pl =>
           ((if pl.last_known_name ≠ r.playerName.getD "Unknown" then
               addNameChange sess pid pl.last_known_name (r.playerName.getD "Unknown")
             else sess)).player_name_changes) := by
  rw [rowStep]
  rcases h1 : truthyId r.playerId with _ | pid <;> simp only [h1]
  rcases h2 : db.players pid with _ | pl <;>
    simp only [h2, setPlayer_records] <;>
    rcases h3 : db.records uid pid with _ | rec <;>
    simp only [h3] <;>
    first
      | (split_ifs <;>
          simp [addNewlyAdded_changes, sessUpdatePbs_changes, sessUpdateNpm_changes])
      | simp [addNewlyAdded_changes, sessUpdatePbs_changes, sessUpdateNpm_changes]

lemma rowStep_nodup (uid mname t : String) (rank : ℕ) (r : Row) (db : DB) {sess : Session}
    (h : (sess.player_name_changes.map nameKey).Nodup) :
    ((rowStep uid mname t rank r db sess).2.player_name_changes.map nameKey).Nodup := by
  rw [rowStep_changes_eq]
  rcases h1 : truthyId r.playerId with _ | pid <;> simp only [h1]
  · exact h
  · rcases h2 : db.players pid with _ | pl <;> simp only [h2]
    · exact h
    · exact ite_addNameChange_nodup _ _ _ _ h

lemma processRows_nodup (uid mname t : String) :
    ∀ (rs : List Row) (rank : ℕ) (db : DB) (sess : Session),
      (sess.player_name_changes.map nameKey).Nodup →
      ((processRows uid mname t rs rank db sess).2.player_name_changes.map nameKey).Nodup := by
  intro rs
  induction rs with
  | nil => intro rank db sess h; exact h
  | cons r rest ih =>
    intro rank db sess h
    rw [processRows]
    exact ih _ _ _ (rowStep_nodup uid mname t rank r db h)

lemma wrCompare_changes (uid mname t : String) (rows : List Row) (db : DB) (sess : Session) :
    (wrCompare uid mname t rows db sess).2.player_name_changes =
      sess.player_name_changes := by
  rw [wrCompare]
  rcases h : rows.head? with _ | r <;> simp only [h]
  · split_ifs <;> rfl
  · rcases h1 : truthyId r.playerId with _ | pid <;>
      rcases h2 : r.time with _ | tms <;>
      simp only [h1, h2] <;>
      split_ifs <;> rfl

lemma processMap_nodup (uid url mname : String) (forder : ℕ) (t : String)
    (rows : List Row) (pcApi : Int) (ffd : Bool) (db : DB) {sess : Session}
    (h : (sess.player_name_changes.map nameKey).Nodup) :
    ((processMap uid url mname forder t rows pcApi ffd db sess).2.player_name_changes.map
      nameKey).Nodup := by
  rw [processMap]
  apply processRows_nodup
  rw [wrCompare_changes]
  rcases hh : rows.head? with _ | r <;> simp only [hh]
  · exact h
  · exact wrPlayerUpsert_nodup t r _ h

lemma processAll_nodup (t : String) :
    ∀ (entries : List MapEntry) (st : DB × Session),
      (st.2.player_name_changes.map nameKey).Nodup →
      ((processAll t entries st).2.player_name_changes.map nameKey).Nodup := by
  intro entries
  induction entries with
  | nil => intro st h; exact h
  | cons e es ih =>
    intro st h
    rw [processAll]
    exact ih _ (processMap_nodup _ _ _ _ _ _ _ _ _ h)

lemma runAll_nodup (t : String) (entries : List MapEntry) (db : DB) :
    ((runAll t entries db).2.player_name_changes.map nameKey).Nodup := by
  rw [runAll]
  exact processAll_nodup t entries _ (by simp [emptySession])

lemma rowSettled_transport {uid : String} {r : Row} {k : ℕ} {db db' : DB}
    (h : rowSettled uid r k db)
    (hp : ∀ p, db'.players p = db.players p)
    (hr : ∀ p, (db'.records uid p).map recCore = (db.records uid p).map recCore) :
    rowSettled uid r k db' := by
  intro pid hpid
  obtain ⟨⟨pl, hpl, h1, h2, h3⟩, rec, hrec, h4, h5⟩ := h pid hpid
  refine ⟨⟨pl, (hp pid).trans hpl, h1, h2, h3⟩, ?_⟩
  have hcell := hr pid
  rw [hrec] at hcell
  rcases hcell' : db'.records uid pid with _ | rec'
  · rw [hcell'] at hcell
    cases hcell
  · rw [hcell'] at hcell
    have heq : recCore rec' = recCore rec := Option.some.inj hcell
    have hpos : rec'.position = rec.position := congrArg Prod.fst heq
    have htm : rec'.time_ms = rec.time_ms := congrArg Prod.snd heq
    refine ⟨rec', rfl, hpos.trans h4, ?_⟩
    intro tv htv
    obtain ⟨te, hte, hle⟩ := h5 tv htv
    exact ⟨te, htm.trans hte, hle⟩

lemma recCore_of_scrub {a b : Option RecordRow}
    (h : a.map scrubRec = b.map scrubRec) : a.map recCore = b.map recCore := by
  have := congrArg (Option.map recCore) h
  simpa [Option.map_map] using this

lemma rowSettled_preserve {uid : String} {r : Row} {k : ℕ} {db db' : DB}
    (h : rowSettled uid r k db)
    (hp : ∀ pid, truthyId r.playerId = some pid →
      db'.players pid = db.players pid ∧ db'.records uid pid = db.records uid pid) :
    rowSettled uid r k db' := by
  intro pid hpid
  obtain ⟨ha, hb⟩ := hp pid hpid
  obtain ⟨⟨pl, hpl, h1, h2, h3⟩, rec, hrec, h4, h5⟩ := h pid hpid
  exact ⟨⟨pl, ha.trans hpl, h1, h2, h3⟩, rec, hb.trans hrec, h4, h5⟩

lemma resetFlags_players (db : DB) : (resetFlags db).players = db.players := rfl

lemma resetFlags_recCore (db : DB) (m p : String) :
    ((resetFlags db).records m p).map recCore = (db.records m p).map recCore := by
  show ((db.records m p).map fun x =>
    { x with
      is_pb_since_last_fetch := false
      is_new_player_on_map_since_last_fetch := false }).map recCore = _
  rcases db.records m p with _ | x <;> rfl

lemma resetFlags_wrId (db : DB) (uid : String) :
    wrStoredId (resetFlags db) uid = wrStoredId db uid := by
  rw [wrStoredId, wrStoredId]
  show (match (db.maps uid).map (fun m => { m with is_new_wr_since_last_fetch := false }) with
    | none => none | some m => m.wr_player_id) = _
  rcases db.maps uid with _ | m <;> rfl

lemma resetFlags_wrTime (db : DB) (uid : String) :
    wrStoredTime (resetFlags db) uid = wrStoredTime db uid := by
  rw [wrStoredTime, wrStoredTime]
  show (match (db.maps uid).map (fun m => { m with is_new_wr_since_last_fetch := false }) with
    | none => none | some m => m.wr_time_ms) = _
  rcases db.maps uid with _ | m <;> rfl

lemma wrMatches_congr {uid : String} {rows : List Row} {db db' : DB}
    (hid : wrStoredId db' uid = wrStoredId db uid)
    (htm : wrStoredTime db' uid = wrStoredTime db uid)
    (h : wrMatches uid rows db) : wrMatches uid rows db' := by
  refine ⟨fun r hr pid tms h1 h2 => ?_, fun hc => hid.trans (h.2 hc)⟩
  obtain ⟨ha, hb⟩ := h.1 r hr pid tms h1 h2
  exact ⟨hid.trans ha, htm.trans hb⟩

lemma mapPhase_players (uid url mname : String) (forder : ℕ) (t : String) (pcApi : Int)
    (ffd : Bool) (len : ℕ) (db : DB) :
    (mapPhase uid url mname forder t pcApi ffd len db).players = db.players := by
  rw [mapPhase, upsertMapRow]
  rcases db.maps uid with _ | m <;> rcases ffd <;> split_ifs <;> rfl

lemma mapPhase_records (uid url mname : String) (forder : ℕ) (t : String) (pcApi : Int)
    (ffd : Bool) (len : ℕ) (db : DB) :
    (mapPhase uid url mname forder t pcApi ffd len db).records = db.records := by
  rw [mapPhase, upsertMapRow]
  rcases db.maps uid with _ | m <;> rcases ffd <;> split_ifs <;> rfl

lemma wrCompare_settled (uid mname t : String) (rows : List Row) (db : DB) (sess : Session)
    (h : wrMatches uid rows db) :
    wrCompare uid mname t rows db sess = (db, sess) := by
  rcases hh : rows.head? with _ | r
  · simp [wrCompare, hh, h.2 (Or.inl hh)]
  · rcases h1 : truthyId r.playerId with _ | pid
    · simp [wrCompare, hh, h1, h.2 (Or.inr ⟨r, hh, Or.inl h1⟩)]
    · rcases h2 : r.time with _ | tms
      · simp [wrCompare, hh, h1, h2, h.2 (Or.inr ⟨r, hh, Or.inr h2⟩)]
      · obtain ⟨ha, hb⟩ := h.1 r hh pid tms h1 h2
        simp [wrCompare, hh, h1, h2, ha, hb]

lemma wrPlayerUpsert_settled (uid t : String) (r : Row) (db : DB) (sess : Session) (k : ℕ)
    (h : rowSettled uid r k db) (hname : r.playerName.isSome = true) :
    (wrPlayerUpsert t r db sess).2 = sess ∧
    (wrPlayerUpsert t r db sess).1.maps = db.maps ∧
    (∀ p, (wrPlayerUpsert t r db sess).1.players p = db.players p) ∧
    (wrPlayerUpsert t r db sess).1.records = db.records := by
  rcases h1 : truthyId r.playerId with _ | pid
  · simp [wrPlayerUpsert, h1]
  · obtain ⟨⟨pl, hpl, hnm, hc1, hc2⟩, _⟩ := h pid h1
    obtain ⟨s, hs⟩ := Option.isSome_iff_exists.mp hname
    have hnm' : pl.last_known_name = r.playerName.getD "UnknownWRPlayer" := by
      rw [hs, Option.getD_some]
      rw [hs, Option.getD_some] at hnm
      exact hnm
    have hplrow : ({ pl with
        country_name := (countryOf r.zone).1
        country_flag := (countryOf r.zone).2 } : PlayerRow) = pl := by
      rw [← hc1, ← hc2]
    have hnot : ¬ (pl.last_known_name ≠ r.playerName.getD "UnknownWRPlayer") :=
      fun hx => hx hnm'
    simp only [wrPlayerUpsert, h1, hpl]
    rw [if_neg hnot]
    refine ⟨rfl, rfl, fun p => ?_, rfl⟩
    show (if p = pid then some _ else db.players p) = db.players p
    split_ifs with hx
    · subst hx
      rw [hpl, hplrow]
    · rfl

lemma rowStep_settled (uid mname t : String) (rank : ℕ) (r : Row) (db : DB) (sess : Session)
    (h : rowSettled uid r rank db) :
    (rowStep uid mname t rank r db sess).2 = sess ∧
    (rowStep uid mname t rank r db sess).1.maps = db.maps ∧
    (∀ p, (rowStep uid mname t rank r db sess).1.players p = db.players p) ∧
    (∀ m p, ((rowStep uid mname t rank r db sess).1.records m p).map scrubRec =
      (db.records m p).map scrubRec) := by
  rcases h1 : truthyId r.playerId with _ | pid
  · simp [rowStep, h1]
  · obtain ⟨⟨pl, hpl, hnm, hc1, hc2⟩, rec, hrec, hpos, htm⟩ := h pid h1
    have hplrow : (⟨r.playerName.getD "Unknown", (countryOf r.zone).1, (countryOf r.zone).2,
        pl.first_seen_by_script_at⟩ : PlayerRow) = pl := by
      rw [← hnm, ← hc1, ← hc2]
    have hnot : ¬ (pl.last_known_name ≠ r.playerName.getD "Unknown") := fun hx => hx hnm
    have hstep : rowStep uid mname t rank r db sess =
        ((db.setPlayer pid ⟨r.playerName.getD "Unknown", (countryOf r.zone).1,
            (countryOf r.zone).2, pl.first_seen_by_script_at⟩).setRecord uid pid
          { rec with script_updated_at := t }, sess) := by
      simp only [rowStep, h1, hpl, setPlayer_records, hrec]
      rw [if_neg hnot]
      rcases ht : r.time with _ | tv
      · split_ifs <;>
          first
            | rfl
            | (exfalso; simp_all)
      · obtain ⟨te, hte, hle⟩ := htm tv ht
        rw [hte]
        split_ifs <;>
          first
            | rfl
            | (exfalso; simp_all; done)
            | (exfalso; simp_all; omega)
    refine ⟨by rw [hstep], by rw [hstep]; rfl, fun p => ?_, fun m p => ?_⟩
    · rw [hstep]
      show (if p = pid then some _ else db.players p) = db.players p
      split_ifs with hx
      · subst hx
        rw [hpl, hplrow]
      · rfl
    · rw [hstep]
      show ((if m = uid ∧ p = pid then some ({ rec with script_updated_at := t })
          else db.records m p).map scrubRec) = (db.records m p).map scrubRec
      split_ifs with hx
      · obtain ⟨hm, hp⟩ := hx
        subst hm
        subst hp
        rw [hrec]
        rfl
      · rfl

lemma processRows_settled (uid mname t : String) :
    ∀ (rows : List Row) (rank : ℕ) (db : DB) (sess : Session),
    (∀ i (hi : i < rows.length), rowSettled uid (rows.get ⟨i, hi⟩) (rank + i) db) →
    (processRows uid mname t rows rank db sess).2 = sess ∧
    (processRows uid mname t rows rank db sess).1.maps = db.maps ∧
    (∀ p, (processRows uid mname t rows rank db sess).1.players p = db.players p) ∧
    (∀ m p, ((processRows uid mname t rows rank db sess).1.records m p).map scrubRec =
      (db.records m p).map scrubRec)
  | [], rank, db, sess, _ => ⟨rfl, rfl, fun _ => rfl, fun _ _ => rfl⟩
  | r :: rs, rank, db, sess, hinv => by
    have h0 : rowSettled uid r rank db := by
      have hx := hinv 0 (by simp)
      simpa using hx
    obtain ⟨ha2, ham, hap, har⟩ := rowStep_settled uid mname t rank r db sess h0
    have hinv' : ∀ i (hi : i < rs.length),
        rowSettled uid (rs.get ⟨i, hi⟩) (rank + 1 + i) (rowStep uid mname t rank r db sess).1 := by
      intro i hi
      have hbase := hinv (i + 1) (by simpa using Nat.succ_lt_succ hi)
      have hk : rank + (i + 1) = rank + 1 + i := by omega
      rw [hk] at hbase
      exact rowSettled_transport hbase hap (fun p => recCore_of_scrub (har uid p))
    obtain ⟨hb2, hbm, hbp, hbr⟩ := processRows_settled uid mname t rs (rank + 1)
      (rowStep uid mname t rank r db sess).1 (rowStep uid mname t rank r db sess).2 hinv'
    refine ⟨?_, ?_, fun p => ?_, fun m p => ?_⟩ <;> simp only [processRows]
    · rw [hb2, ha2]
    · rw [hbm, ham]
    · rw [hbp p, hap p]
    · rw [hbr m p, har m p]

lemma rowStep_establishes (uid mname t : String) (rank : ℕ) (r : Row) (db : DB) (sess : Session) :
    rowSettled uid r rank (rowStep uid mname t rank r db sess).1 := by
  intro pid h1
  have hscrut : ∀ (rec : RecordRow),
      ¬ (match r.time, rec.time_ms with
          | some _, none => true
          | some tv, some te => decide (tv < te ∨ tv = te ∧ rank < rec.position)
          | none, _ => false) = true →
      ∀ tv, r.time = some tv → ∃ te, rec.time_ms = some te ∧ te ≤ tv := by
    intro rec hx tv htv
    rw [htv] at hx
    rcases h4 : rec.time_ms with _ | te
    · rw [h4] at hx
      exact absurd rfl hx
    · rw [h4] at hx
      simp only [decide_eq_true_eq] at hx
      push_neg at hx
      exact ⟨te, rfl, by omega⟩
  rcases h2 : db.players pid with _ | pl
  · simp only [rowStep, h1, h2, setPlayer_records]
    rcases h3 : db.records uid pid with _ | rec <;> simp only [h3]
    · exact ⟨⟨⟨r.playerName.getD "Unknown", (countryOf r.zone).1, (countryOf r.zone).2, t⟩,
          by simp [DB.setRecord, DB.setPlayer], rfl, rfl, rfl⟩,
        ⟨⟨r.time, r.score, rank, r.timestamp, t, t, false, true⟩,
          by simp [DB.setRecord], rfl, fun tv htv => ⟨tv, htv, le_rfl⟩⟩⟩
    · split_ifs with hx hy
      · exact ⟨⟨⟨r.playerName.getD "Unknown", (countryOf r.zone).1, (countryOf r.zone).2, t⟩,
            by simp [DB.setRecord, DB.setPlayer], rfl, rfl, rfl⟩,
          ⟨{ rec with
              time_ms := r.time
              score := r.score
              position := rank
              game_timestamp := r.timestamp
              script_updated_at := t
              is_pb_since_last_fetch := true },
            by simp [DB.setRecord], rfl, fun tv htv => ⟨tv, htv, le_rfl⟩⟩⟩
      · exact ⟨⟨⟨r.playerName.getD "Unknown", (countryOf r.zone).1, (countryOf r.zone).2, t⟩,
            by simp [DB.setRecord, DB.setPlayer], rfl, rfl, rfl⟩,
          ⟨{ rec with
              position := rank
              script_updated_at := t },
            by simp [DB.setRecord], rfl, hscrut rec hx⟩⟩
      · exact ⟨⟨⟨r.playerName.getD "Unknown", (countryOf r.zone).1, (countryOf r.zone).2, t⟩,
            by simp [DB.setRecord, DB.setPlayer], rfl, rfl, rfl⟩,
          ⟨{ rec with script_updated_at := t },
            by simp [DB.setRecord], (not_ne_iff.mp hy).symm, hscrut rec hx⟩⟩
  · simp only [rowStep, h1, h2, setPlayer_records]
    by_cases hn : pl.last_known_name ≠ r.playerName.getD "Unknown"
    all_goals
      first
        | simp only [if_pos hn]
        | simp only [if_neg hn]
    all_goals (
      rcases h3 : db.records uid pid with _ | rec <;> simp only [h3]
      · exact ⟨⟨⟨r.playerName.getD "Unknown", (countryOf r.zone).1, (countryOf r.zone).2,
              pl.first_seen_by_script_at⟩,
            by simp [DB.setRecord, DB.setPlayer], rfl, rfl, rfl⟩,
          ⟨⟨r.time, r.score, rank, r.timestamp, t, t, false, true⟩,
            by simp [DB.setRecord], rfl, fun tv htv => ⟨tv, htv, le_rfl⟩⟩⟩
      · split_ifs with hx hy
        · exact ⟨⟨⟨r.playerName.getD "Unknown", (countryOf r.zone).1, (countryOf r.zone).2,
                pl.first_seen_by_script_at⟩,
              by simp [DB.setRecord, DB.setPlayer], rfl, rfl, rfl⟩,
            ⟨{ rec with
                time_ms := r.time
                score := r.score
                position := rank
                game_timestamp := r.timestamp
                script_updated_at := t
                is_pb_since_last_fetch := true },
              by simp [DB.setRecord], rfl, fun tv htv => ⟨tv, htv, le_rfl⟩⟩⟩
        · exact ⟨⟨⟨r.playerName.getD "Unknown", (countryOf r.zone).1, (countryOf r.zone).2,
                pl.first_seen_by_script_at⟩,
              by simp [DB.setRecord, DB.setPlayer], rfl, rfl, rfl⟩,
            ⟨{ rec with
                position := rank
                script_updated_at := t },
              by simp [DB.setRecord], rfl, hscrut rec hx⟩⟩
        · exact ⟨⟨⟨r.playerName.getD "Unknown", (countryOf r.zone).1, (countryOf r.zone).2,
                pl.first_seen_by_script_at⟩,
              by simp [DB.setRecord, DB.setPlayer], rfl, rfl, rfl⟩,
            ⟨{ rec with script_updated_at := t },
              by simp [DB.setRecord], (not_ne_iff.mp hy).symm, hscrut rec hx⟩⟩)

lemma rowStep_preserves (uid mname t : String) (rank : ℕ) (r : Row) (db : DB) (sess : Session)
    (pid : String) (h : truthyId r.playerId ≠ some pid) :
    (rowStep uid mname t rank r db sess).1.players pid = db.players pid ∧
    ∀ m, (rowStep uid mname t rank r db sess).1.records m pid = db.records m pid := by
  rcases h1 : truthyId r.playerId with _ | pid'
  · simp [rowStep, h1]
  · have hne : pid ≠ pid' := fun he => h (h1.trans (by rw [he]))
    simp only [rowStep, h1]
    rcases h2 : db.players pid' with _ | pl <;>
      simp only [h2, setPlayer_records] <;>
      rcases h3 : db.records uid pid' with _ | rec <;>
      simp only [h3] <;>
      first
        | (split_ifs <;> refine ⟨?_, fun m => ?_⟩ <;> simp [DB.setRecord, DB.setPlayer, hne])
        | (refine ⟨?_, fun m => ?_⟩ <;> simp [DB.setRecord, DB.setPlayer, hne])

lemma processRows_preserves (uid mname t : String) :
    ∀ (rows : List Row) (rank : ℕ) (db : DB) (sess : Session) (pid : String),
    (∀ r ∈ rows, truthyId r.playerId ≠ some pid) →
    (processRows uid mname t rows rank db sess).1.players pid = db.players pid ∧
    ∀ m, (processRows uid mname t rows rank db sess).1.records m pid = db.records m pid
  | [], _, _, _, _, _ => ⟨rfl, fun _ => rfl⟩
  | r :: rs, rank, db, sess, pid, h => by
    obtain ⟨ha, hb⟩ := rowStep_preserves uid mname t rank r db sess pid
      (h r (List.mem_cons_self r rs))
    obtain ⟨hc, hd⟩ := processRows_preserves uid mname t rs (rank + 1)
      (rowStep uid mname t rank r db sess).1 (rowStep uid mname t rank r db sess).2 pid
      (fun r' hr' => h r' (List.mem_cons_of_mem r hr'))
    refine ⟨?_, fun m => ?_⟩ <;> simp only [processRows]
    · rw [hc, ha]
    · rw [hd m, hb m]

lemma pids_nodup_tail {α β : Type} [DecidableEq β] {f : α → Option β} {r : α} {rs : List α}
    (h : ((r :: rs).filterMap f).Nodup) : (rs.filterMap f).Nodup := by
  rcases hf : f r with _ | v
  · rwa [List.filterMap_cons, hf] at h
  · rw [List.filterMap_cons, hf] at h
    exact h.of_cons

lemma pids_head_notin {α β : Type} {f : α → Option β} {r : α} {rs : List α} {v : β}
    (h : ((r :: rs).filterMap f).Nodup) (hf : f r = some v) :
    ∀ r' ∈ rs, f r' ≠ some v := by
  rw [List.filterMap_cons, hf] at h
  intro r' hr' he
  exact (List.nodup_cons.mp h).1 (List.mem_filterMap.mpr ⟨r', hr', he⟩)

lemma processRows_establishes (uid mname t : String) :
    ∀ (rows : List Row) (rank : ℕ) (db : DB) (sess : Session),
    (rows.filterMap fun r => truthyId r.playerId).Nodup →
    ∀ i (hi : i < rows.length),
      rowSettled uid (rows.get ⟨i, hi⟩) (rank + i) (processRows uid mname t rows rank db sess).1
  | [], _, _, _, _, i, hi => absurd hi (by simp)
  | r :: rs, rank, db, sess, hnd, i, hi => by
    cases i with
    | zero =>
      have hest := rowStep_establishes uid mname t rank r db sess
      refine rowSettled_preserve hest ?_
      intro pid hpid
      obtain ⟨ha, hb⟩ := processRows_preserves uid mname t rs (rank + 1)
        (rowStep uid mname t rank r db sess).1 (rowStep uid mname t rank r db sess).2 pid
        (fun r' hr' he => pids_head_notin hnd hpid r' hr' he)
      exact ⟨ha, hb uid⟩
    | succ j =>
      have hnd' := pids_nodup_tail hnd
      have hj : j < rs.length := by simpa using Nat.lt_of_succ_lt_succ hi
      have hrec := processRows_establishes uid mname t rs (rank + 1)
        (rowStep uid mname t rank r db sess).1 (rowStep uid mname t rank r db sess).2 hnd' j hj
      have hk : rank + 1 + j = rank + (j + 1) := by omega
      rw [hk] at hrec
      exact hrec

lemma updateMap_mapcore (uid k : String) (db : DB) (g : MapRow → MapRow)
    (hg : ∀ m, mapCore (g m) = mapCore m) :
    ((db.updateMap uid g).maps k).map mapCore = (db.maps k).map mapCore := by
  show (if k = uid then (db.maps uid).map g else db.maps k).map mapCore =
    (db.maps k).map mapCore
  split_ifs with hk
  · subst hk
    rcases db.maps k with _ | m
    · rfl
    · show some (mapCore (g m)) = some (mapCore m)
      rw [hg m]
  · rfl

lemma wrCompare_mapcore (uid mname t : String) (rows : List Row) (db : DB) (sess : Session)
    (k : String) :
    ((wrCompare uid mname t rows db sess).1.maps k).map mapCore = (db.maps k).map mapCore := by
  rcases hh : rows.head? with _ | r
  · simp only [wrCompare, hh]
    split_ifs
    · exact updateMap_mapcore uid k db _ (fun m => rfl)
    · rfl
  · rcases h1 : truthyId r.playerId with _ | pid <;> rcases h2 : r.time with _ | tms <;>
      simp only [wrCompare, hh, h1, h2] <;> split_ifs <;>
      first
        | rfl
        | exact updateMap_mapcore uid k db _ (fun m => rfl)

lemma mapPhase_mapfacts (uid url mname : String) (forder : ℕ) (t : String) (pcApi : Int)
    (len : ℕ) (db : DB) :
    ∃ m, (mapPhase uid url mname forder t pcApi true len db).maps uid = some m ∧
      m.api_url = url ∧ m.map_display_name = mname ∧ m.fetch_order = forder ∧
      m.last_playercount = (if (len : Int) ≠ pcApi then (len : Int) else pcApi) := by
  rcases hm : db.maps uid with _ | m0 <;>
    simp only [mapPhase, upsertMapRow, hm, if_pos] <;>
    split_ifs with hlen
  · exact ⟨⟨url, mname, (len : Int), t, forder, none, none, none, none, false⟩,
      by simp [DB.setMap, DB.updateMap], rfl, rfl, rfl, rfl⟩
  · exact ⟨⟨url, mname, pcApi, t, forder, none, none, none, none, false⟩,
      by simp [DB.setMap, DB.updateMap], rfl, rfl, rfl, rfl⟩
  · exact ⟨{ m0 with
        map_display_name := mname
        last_playercount := (len : Int)
        last_fetched_at := t
        api_url := url
        fetch_order := forder },
      by simp [DB.setMap, DB.updateMap], rfl, rfl, rfl, rfl⟩
  · exact ⟨{ m0 with
        map_display_name := mname
        last_playercount := pcApi
        last_fetched_at := t
        api_url := url
        fetch_order := forder },
      by simp [DB.setMap, DB.updateMap], rfl, rfl, rfl, rfl⟩

lemma processMap_mapfacts (uid url mname : String) (forder : ℕ) (t : String)
    (rows : List Row) (pcApi : Int) (db : DB) (sess : Session) :
    ∃ m, (processMap uid url mname forder t rows pcApi true db sess).1.maps uid = some m ∧
      m.api_url = url ∧ m.map_display_name = mname ∧ m.fetch_order = forder ∧
      m.last_playercount =
        (if (rows.length : Int) ≠ pcApi then (rows.length : Int) else pcApi) := by
  obtain ⟨m2, hm2, hf1, hf2, hf3, hf4⟩ :=
    mapPhase_mapfacts uid url mname forder t pcApi rows.length db
  have hst3 : (match rows.head? with
      | some r =>
        wrPlayerUpsert t r (mapPhase uid url mname forder t pcApi true rows.length db) sess
      | none => (mapPhase uid url mname forder t pcApi true rows.length db, sess)).1.maps =
      (mapPhase uid url mname forder t pcApi true rows.length db).maps := by
    rcases rows.head? with _ | r
    · rfl
    · exact wrPlayerUpsert_maps t r _ sess
  have hcore := wrCompare_mapcore uid mname t rows
    (match rows.head? with
      | some r =>
        wrPlayerUpsert t r (mapPhase uid url mname forder t pcApi true rows.length db) sess
      | none => (mapPhase uid url mname forder t pcApi true rows.length db, sess)).1
    (match rows.head? with
      | some r =>
        wrPlayerUpsert t r (mapPhase uid url mname forder t pcApi true rows.length db) sess
      | none => (mapPhase uid url mname forder t pcApi true rows.length db, sess)).2 uid
  rw [hst3, hm2] at hcore
  rcases hfin : (wrCompare uid mname t rows
      (match rows.head? with
        | some r =>
          wrPlayerUpsert t r (mapPhase uid url mname forder t pcApi true rows.length db) sess
        | none => (mapPhase uid url mname forder t pcApi true rows.length db, sess)).1
      (match rows.head? with
        | some r =>
          wrPlayerUpsert t r (mapPhase uid url mname forder t pcApi true rows.length db) sess
        | none => (mapPhase uid url mname forder t pcApi true rows.length db, sess)).2).1.maps
      uid with _ | mf
  · rw [hfin] at hcore
    cases hcore
  · rw [hfin] at hcore
    have hmc : mapCore mf = mapCore m2 := Option.some.inj hcore
    simp only [mapCore, Prod.mk.injEq] at hmc
    refine ⟨mf, ?_, hmc.1.trans hf1, hmc.2.1.trans hf2, hmc.2.2.2.trans hf3,
      hmc.2.2.1.trans hf4⟩
    simp only [processMap]
    rw [processRows_maps]
    exact hfin

lemma wrCompare_degenerate_wrId (uid mname t : String) {r : Row} (rest : List Row) (db : DB)
    (sess : Session) (hdeg : truthyId r.playerId = none ∨ r.time = none) :
    wrStoredId (wrCompare uid mname t (r :: rest) db sess).1 uid = none := by
  have hclose : wrStoredId (if (wrStoredId db uid).isSome then
      ((db.updateMap uid fun m =>
        { m with
          wr_player_id := none
          wr_time_ms := none
          wr_game_timestamp := none
          wr_script_recorded_at := some t
          is_new_wr_since_last_fetch := true }),
       { sess with new_wrs := sess.new_wrs ++
         [(mname, "None (Empty Leaderboard or WR Deleted)", none, wrStoredName db uid,
           wrStoredTime db uid)] })
      else (db, sess)).1 uid = none := by
    split_ifs with hs
    · exact updateMap_set_wrId uid db (wrStoredId_isSome_maps hs) none (fun m => rfl)
    · exact Option.not_isSome_iff_eq_none.mp hs
  rcases hdeg with hdeg | hdeg
  · simp only [wrCompare, List.head?_cons, hdeg]
    exact hclose
  · rcases h1 : truthyId r.playerId with _ | pid <;>
      simp only [wrCompare, List.head?_cons, hdeg, h1] <;>
      exact hclose

lemma processMap_wr_settled (uid url mname : String) (forder : ℕ) (t : String)
    (rows : List Row) (pcApi : Int) (db : DB) (sess : Session) :
    wrMatches uid rows (processMap uid url mname forder t rows pcApi true db sess).1 := by
  cases rows with
  | nil =>
    refine ⟨fun r hr => (nomatch hr), fun _ => ?_⟩
    exact (processMap_wr_spec uid url mname forder t [] pcApi true db sess (Or.inr rfl)
      (fun r hr => nomatch hr)).2.1
  | cons r rest =>
    by_cases hdeg : truthyId r.playerId = none ∨ r.time = none
    · have hid : wrStoredId (processMap uid url mname forder t (r :: rest) pcApi true db sess).1
          uid = none := by
        simp only [processMap]
        rw [wrStoredId_congr uid (processRows_maps uid mname t (r :: rest) 1 _ _)]
        exact wrCompare_degenerate_wrId uid mname t rest _ _ hdeg
      refine ⟨fun r' hr' pid tms h1 h2 => ?_, fun _ => hid⟩
      rw [← Option.some.inj hr'] at h1 h2
      rcases hdeg with hdeg | hdeg
      · rw [hdeg] at h1
        cases h1
      · rw [hdeg] at h2
        cases h2
    · push_neg at hdeg
      obtain ⟨pid, hpid⟩ := Option.ne_none_iff_exists.mp hdeg.1
      obtain ⟨tms, htms⟩ := Option.ne_none_iff_exists.mp hdeg.2
      have hspec := processMap_wr_spec uid url mname forder t (r :: rest) pcApi true db sess
        (Or.inl rfl)
        (fun r' hr' => by
          rw [← Option.some.inj hr']
          exact ⟨by rw [← hpid]; rfl, by rw [← htms]; rfl⟩)
      refine ⟨fun r' hr' pid' tms' h1 h2 => ?_, fun hc => ?_⟩
      · rw [← Option.some.inj hr'] at h1 h2
        have hid := hspec.2.1
        have htm := hspec.2.2.1
        simp only [List.head?_cons] at hid htm
        by_cases hcond : wrStoredId db uid ≠ truthyId r.playerId ∨
            wrStoredTime db uid ≠ r.time
        · rw [if_pos hcond] at hid htm
          exact ⟨hid.trans h1, htm.trans h2⟩
        · rw [if_neg hcond] at hid htm
          push_neg at hcond
          exact ⟨hid.trans (hcond.1.trans h1), htm.trans (hcond.2.trans h2)⟩
      · rcases hc with hc | ⟨r', hr', hc⟩
        · cases hc
        · rw [← Option.some.inj hr'] at hc
          rcases hc with hc | hc
          · rw [hpid.symm] at hc
            cases hc
          · rw [htms.symm] at hc
            cases hc

lemma mapPhase_scrub (uid url mname : String) (forder : ℕ) (t : String) (pcApi : Int)
    (len : ℕ) (R : DB) {m : MapRow} (hm : R.maps uid = some m)
    (h1 : m.api_url = url) (h2 : m.map_display_name = mname) (h3 : m.fetch_order = forder)
    (h4 : m.last_playercount = (if (len : Int) ≠ pcApi then (len : Int) else pcApi)) :
    ∀ k, ((mapPhase uid url mname forder t pcApi true len R).maps k).map scrubMap =
      (R.maps k).map scrubMap := by
  intro k
  by_cases hk : k = uid
  · subst hk
    simp only [mapPhase, upsertMapRow, hm]
    split_ifs with hlen
    · have hpc : (len : Int) = m.last_playercount := by rw [h4, if_pos hlen]
      simp only [DB.updateMap, DB.setMap, if_pos rfl, Option.map_some, hm]
      show some (scrubMap { m with
        map_display_name := mname
        last_playercount := (len : Int)
        last_fetched_at := t
        api_url := url
        fetch_order := forder }) = some (scrubMap m)
      rw [← h1, ← h2, ← h3, hpc]
      rfl
    · have hpc : pcApi = m.last_playercount := by rw [h4, if_neg hlen]
      simp only [DB.setMap, if_pos rfl, Option.map_some, hm]
      show some (scrubMap { m with
        map_display_name := mname
        last_playercount := pcApi
        last_fetched_at := t
        api_url := url
        fetch_order := forder }) = some (scrubMap m)
      rw [← h1, ← h2, ← h3, hpc]
      rfl
  · simp only [mapPhase, upsertMapRow, hm]
    split_ifs with hlen <;>
      simp [DB.setMap, DB.updateMap, hk]

lemma secondRun_of_settled (uid url mname : String) (forder : ℕ) (t2 : String)
    (rows : List Row) (pcApi : Int) (R : DB)
    (hset : ∀ i (hi : i < rows.length), rowSettled uid (rows.get ⟨i, hi⟩) (1 + i) R)
    (hwr : wrMatches uid rows R)
    (hmf : ∃ m, R.maps uid = some m ∧ m.api_url = url ∧ m.map_display_name = mname ∧
      m.fetch_order = forder ∧
      m.last_playercount = (if (rows.length : Int) ≠ pcApi then (rows.length : Int) else pcApi))
    (hheadname : ∀ r, rows.head? = some r → r.playerName.isSome = true) :
    (processMap uid url mname forder t2 rows pcApi true R emptySession).2 = emptySession ∧
    (∀ p, (processMap uid url mname forder t2 rows pcApi true R emptySession).1.players p =
      R.players p) ∧
    (∀ m p, ((processMap uid url mname forder t2 rows pcApi true R emptySession).1.records m p).map
      scrubRec = (R.records m p).map scrubRec) ∧
    (∀ k, ((processMap uid url mname forder t2 rows pcApi true R emptySession).1.maps k).map
      scrubMap = (R.maps k).map scrubMap) := by
  obtain ⟨m, hm, hf1, hf2, hf3, hf4⟩ := hmf
  have hmapscrub := mapPhase_scrub uid url mname forder t2 pcApi rows.length R hm hf1 hf2 hf3 hf4
  have hPp := mapPhase_players uid url mname forder t2 pcApi true rows.length R
  have hPr := mapPhase_records uid url mname forder t2 pcApi true rows.length R
  have hPid := mapPhase_wrId uid url mname forder t2 pcApi true rows.length R
  have hPtm := mapPhase_wrTime uid url mname forder t2 pcApi true rows.length R
  have hwrP : wrMatches uid rows (mapPhase uid url mname forder t2 pcApi true rows.length R) :=
    wrMatches_congr hPid hPtm hwr
  cases rows with
  | nil =>
    have hcmp := wrCompare_settled uid mname t2 []
      (mapPhase uid url mname forder t2 pcApi true (List.length ([] : List Row)) R)
      emptySession hwrP
    simp only [processMap, List.head?_nil]
    rw [hcmp]
    refine ⟨rfl, fun p => congrFun hPp p, fun mm p => ?_, fun k => ?_⟩
    · show ((mapPhase uid url mname forder t2 pcApi true (List.length ([] : List Row))
          R).records mm p).map scrubRec = (R.records mm p).map scrubRec
      rw [hPr]
    · exact hmapscrub k
  | cons r rest =>
    have hset0 : rowSettled uid r 1
        (mapPhase uid url mname forder t2 pcApi true (r :: rest).length R) := by
      have h0 := hset 0 (by simp)
      exact rowSettled_transport (by simpa using h0) (fun p => congrFun hPp p)
        (fun p => by rw [hPr])
    obtain ⟨hu2, hum, hup, hur⟩ := wrPlayerUpsert_settled uid t2 r
      (mapPhase uid url mname forder t2 pcApi true (r :: rest).length R) emptySession 1
      hset0 (hheadname r rfl)
    have hwr3 : wrMatches uid (r :: rest)
        (wrPlayerUpsert t2 r (mapPhase uid url mname forder t2 pcApi true (r :: rest).length R)
          emptySession).1 :=
      wrMatches_congr (wrStoredId_congr uid hum) (wrStoredTime_congr uid hum) hwrP
    have hcmp := wrCompare_settled uid mname t2 (r :: rest)
      (wrPlayerUpsert t2 r (mapPhase uid url mname forder t2 pcApi true (r :: rest).length R)
        emptySession).1
      (wrPlayerUpsert t2 r (mapPhase uid url mname forder t2 pcApi true (r :: rest).length R)
        emptySession).2 hwr3
    have hinvP : ∀ i (hi : i < (r :: rest).length),
        rowSettled uid ((r :: rest).get ⟨i, hi⟩) (1 + i)
          (wrPlayerUpsert t2 r (mapPhase uid url mname forder t2 pcApi true
            (r :: rest).length R) emptySession).1 := by
      intro i hi
      refine rowSettled_transport (rowSettled_transport (hset i hi)
        (fun p => congrFun hPp p) (fun p => by rw [hPr])) hup (fun p => by rw [hur])
    obtain ⟨hr2, hrm, hrp, hrr⟩ := processRows_settled uid mname t2 (r :: rest) 1
      (wrPlayerUpsert t2 r (mapPhase uid url mname forder t2 pcApi true (r :: rest).length R)
        emptySession).1
      (wrPlayerUpsert t2 r (mapPhase uid url mname forder t2 pcApi true (r :: rest).length R)
        emptySession).2 hinvP
    simp only [processMap, List.head?_cons]
    rw [hcmp]
    refine ⟨hr2.trans hu2, fun p => ?_, fun mm p => ?_, fun k => ?_⟩
    · exact ((hrp p).trans (hup p)).trans (congrFun hPp p)
    · refine (hrr mm p).trans ?_
      show ((wrPlayerUpsert t2 r (mapPhase uid url mname forder t2 pcApi true
          (r :: rest).length R) emptySession).1.records mm p).map scrubRec =
        (R.records mm p).map scrubRec
      rw [hur, hPr]
    · have hx : ((processRows uid mname t2 (r :: rest) 1
          (wrPlayerUpsert t2 r (mapPhase uid url mname forder t2 pcApi true
            (r :: rest).length R) emptySession).1
          (wrPlayerUpsert t2 r (mapPhase uid url mname forder t2 pcApi true
            (r :: rest).length R) emptySession).2).1.maps k).map scrubMap =
          (R.maps k).map scrubMap := by
        rw [hrm, hum]
        exact hmapscrub k
      exact hx

lemma processMap_second_run (uid url mname : String) (forder : ℕ) (t1 t2 : String)
    (rows : List Row) (pcApi : Int) (db : DB) (sess : Session)
    (hnodup : (rows.filterMap fun r => truthyId r.playerId).Nodup)
    (hheadname : ∀ r, rows.head? = some r → r.playerName.isSome = true) :
    (processMap uid url mname forder t2 rows pcApi true
      (resetFlags (processMap uid url mname forder t1 rows pcApi true db sess).1)
      emptySession).2 = emptySession ∧
    (∀ p, (processMap uid url mname forder t2 rows pcApi true
      (resetFlags (processMap uid url mname forder t1 rows pcApi true db sess).1)
      emptySession).1.players p =
      (resetFlags (processMap uid url mname forder t1 rows pcApi true db sess).1).players p) ∧
    (∀ m p, ((processMap uid url mname forder t2 rows pcApi true
      (resetFlags (processMap uid url mname forder t1 rows pcApi true db sess).1)
      emptySession).1.records m p).map scrubRec =
      ((resetFlags (processMap uid url mname forder t1 rows pcApi true db sess).1).records
        m p).map scrubRec) ∧
    (∀ k, ((processMap uid url mname forder t2 rows pcApi true
      (resetFlags (processMap uid url mname forder t1 rows pcApi true db sess).1)
      emptySession).1.maps k).map scrubMap =
      ((resetFlags (processMap uid url mname forder t1 rows pcApi true db sess).1).maps k).map
        scrubMap) := by
  apply secondRun_of_settled
  · intro i hi
    have hest : rowSettled uid (rows.get ⟨i, hi⟩) (1 + i)
        (processMap uid url mname forder t1 rows pcApi true db sess).1 := by
      show rowSettled uid (rows.get ⟨i, hi⟩) (1 + i)
        (processRows uid mname t1 rows 1 _ _).1
      exact processRows_establishes uid mname t1 rows 1 _ _ hnodup i hi
    exact rowSettled_transport hest (fun p => rfl)
      (fun p => resetFlags_recCore
        (processMap uid url mname forder t1 rows pcApi true db sess).1 uid p)
  · exact wrMatches_congr (resetFlags_wrId _ uid) (resetFlags_wrTime _ uid)
      (processMap_wr_settled uid url mname forder t1 rows pcApi db sess)
  · obtain ⟨m1, hm1, f1, f2, f3, f4⟩ :=
      processMap_mapfacts uid url mname forder t1 rows pcApi db sess
    refine ⟨{ m1 with is_new_wr_since_last_fetch := false }, ?_, f1, f2, f3, f4⟩
    show ((processMap uid url mname forder t1 rows pcApi true db sess).1.maps uid).map
      (fun mm => ({ mm with is_new_wr_since_last_fetch := false } : MapRow)) =
      some { m1 with is_new_wr_since_last_fetch := false }
    rw [hm1]
    rfl
  · exact hheadname

lemma fetchLoopF_err (api : ℕ → Option (Int × List Row)) (fuel offset : ℕ) (pc : Int)
    (ffd : Bool) (h : api offset = none) :
    fetchLoopF api (fuel + 1) offset pc ffd = some ([], pc, ffd, 1) := by
  simp [fetchLoopF, h]

lemma fetchLoopF_short (api : ℕ → Option (Int × List Row)) (fuel offset : ℕ) (pc : Int)
    (ffd : Bool) (rpc : Int) (rows : List Row) (h : api offset = some (rpc, rows))
    (hne : rows ≠ []) (hlen : rows.length < 100) :
    fetchLoopF api (fuel + 1) offset pc ffd =
      some (rows, (if ffd then pc else rpc), true, 1) := by
  simp [fetchLoopF, h, hne, hlen]

lemma fetchLoopF_reach (api : ℕ → Option (Int × List Row)) (fuel offset : ℕ) (pc : Int)
    (ffd : Bool) (rpc : Int) (rows : List Row) (h : api offset = some (rpc, rows))
    (hne : rows ≠ []) (hge : (offset + 100 : Int) ≥ (if ffd then pc else rpc))
    (hpos : (if ffd then pc else rpc) > 0) :
    fetchLoopF api (fuel + 1) offset pc ffd =
      some (rows, (if ffd then pc else rpc), true, 1) := by
  by_cases hlen : rows.length < 100
  · exact fetchLoopF_short api fuel offset pc ffd rpc rows h hne hlen
  · simp [fetchLoopF, h, hne, hlen, hge, hpos]

lemma fetchLoopF_cap (api : ℕ → Option (Int × List Row)) (fuel offset : ℕ) (pc : Int)
    (ffd : Bool) (rpc : Int) (rows : List Row) (h : api offset = some (rpc, rows))
    (hne : rows ≠ []) (hcap : offset + 100 ≥ 10000)
    (hz : (if ffd then pc else rpc) = 0) :
    fetchLoopF api (fuel + 1) offset pc ffd =
      some (rows, (if ffd then pc else rpc), true, 1) := by
  by_cases hlen : rows.length < 100
  · exact fetchLoopF_short api fuel offset pc ffd rpc rows h hne hlen
  · simp [fetchLoopF, h, hne, hlen, hcap, hz]

lemma fetchLoopF_api250 (fuel : ℕ) :
    fetchLoopF api250 (fuel + 3) 0 0 false =
      some (List.replicate 100 dummyRow ++ (List.replicate 100 dummyRow ++
        List.replicate 50 dummyRow), 250, true, 3) := by
  have h2 : fetchLoopF api250 (fuel + 1) 200 250 true =
      some (List.replicate 50 dummyRow, 250, true, 1) := by
    have := fetchLoopF_short api250 fuel 200 250 true 250 (List.replicate 50 dummyRow)
      (by decide) (by decide) (by decide)
    simpa using this
  have h1 : fetchLoopF api250 (fuel + 2) 100 250 true =
      some (List.replicate 100 dummyRow ++ List.replicate 50 dummyRow, 250, true, 2) := by
    show fetchLoopF api250 (fuel + 1 + 1) 100 250 true = _
    rw [fetchLoopF]
    norm_num [api250]
    rw [h2]
    norm_num [← List.replicate_add]
  show fetchLoopF api250 (fuel + 2 + 1) 0 0 false = _
  rw [fetchLoopF]
  norm_num [api250]
  rw [h1]
  norm_num [← List.replicate_add]

/-- Claim C1 (amended): the zone resolver walks the path from the leaf
toward the root and returns the first zone whose grandparent is World or
whose parent is World; for a four-level chain City, Region, Country, World
this is the Region, not the Country; a parentless leaf resolves to
itself. -/
theorem zone_resolution_amended (cn cf rn rf con cof wf n f : String)
    (hc : con ≠ "World") (hr : rn ≠ "World") (_hn : n ≠ "World") :
    get_actual_country_info (Zone.node cn cf (Zone.node rn rf (Zone.node con cof
      (Zone.root "World" wf)))) = (rn, rf) ∧
    get_actual_country_info (Zone.root n f) = (n, f) := by
  constructor
  · simp [get_actual_country_info, zonePath, findCountryInPath, gpIsWorld,
      Zone.parent, Zone.name, Zone.flag, hc, hr]
  · simp [get_actual_country_info, zonePath, Zone.name, Zone.flag]

/-- Claim C1 witness: the amended resolver claim at a concrete chain. -/
theorem zone_resolution_amended_witness :
    ("CO" ≠ "World" ∧ "RE" ≠ "World" ∧ "Solo" ≠ "World") ∧
    get_actual_country_info (Zone.node "CI" "cif" (Zone.node "RE" "ref"
      (Zone.node "CO" "cof" (Zone.root "World" "wf")))) = ("RE", "ref") ∧
    get_actual_country_info (Zone.root "Solo" "sf") = ("Solo", "sf") :=
  ⟨⟨by decide, by decide, by decide⟩,
    zone_resolution_amended "CI" "cif" "RE" "ref" "CO" "cof" "wf" "Solo" "sf"
      (by decide) (by decide) (by decide)⟩

/-- Claim C1 counterexample: for a leaf chain City, Region, Country, World
the resolver returns the Region's name and flag, not the Country's as the
specification states. -/
theorem zone_resolution_counterexample :
    get_actual_country_info (Zone.node "City" "cif" (Zone.node "Region" "ref"
      (Zone.node "Country" "cof" (Zone.root "World" "wf")))) = ("Region", "ref") ∧
    (("Region", "ref") : String × String) ≠ ("Country", "cof") := by
  constructor
  · decide
  · decide

/-- Claim C3 (amended): the name-change event log of a full run is
de-duplicated on the pair of player id and new name: no two logged events
share both, even across maps.  At most one event per player id alone does
not hold. -/
theorem name_change_dedup_key (t : String) (entries : List MapEntry) (db : DB) :
    (((runAll t entries db).2.player_name_changes).map nameKey).Nodup :=
  runAll_nodup t entries db

/-- Claim C3 counterexample: one player fetched on two maps under two
different new names yields two name-change events in a single run, refuting
at-most-one-event-per-player. -/
theorem name_change_dedup_counterexample :
    ((runAll "t1" [⟨"m1", "u1", "Map1", 0, [pRow "B"], 1, true⟩,
        ⟨"m2", "u2", "Map2", 1, [pRow "C"], 1, true⟩] db0C3).2.player_name_changes.filter
      fun c => c.1 = "p1").length = 2 := by decide

/-- Claim C9: calculate_points_for_rank is monotonically non-increasing on
ranks at least 1 and returns 0 for rank 0 and for negative ranks. -/
theorem points_monotone_spec :
    (∀ a b : ℤ, 1 ≤ a → a ≤ b →
      calculate_points_for_rank b ≤ calculate_points_for_rank a) ∧
    (∀ r : ℤ, r ≤ 0 → calculate_points_for_rank r = 0) :=
  ⟨fun _ _ ha hab => calculate_points_antitone_int ha hab,
   fun r hr => by rw [calculate_points_for_rank, if_pos hr]⟩

/-- Claim C9 witness: monotonicity and the zero cases at concrete ranks. -/
theorem points_monotone_spec_witness :
    (1 ≤ (3 : ℤ) ∧ (3 : ℤ) ≤ 5 ∧ (-7 : ℤ) ≤ 0 ∧ (0 : ℤ) ≤ 0) ∧
    calculate_points_for_rank 5 ≤ calculate_points_for_rank 3 ∧
    calculate_points_for_rank (-7) = 0 ∧ calculate_points_for_rank 0 = 0 :=
  ⟨⟨by decide, by decide, by decide, by decide⟩,
   points_monotone_spec.1 3 5 (by decide) (by decide),
   points_monotone_spec.2 (-7) (by decide),
   points_monotone_spec.2 0 (by decide)⟩

/-- Claim C10: the literal point values 40000, 4444.44, 4000, 3618.18, 2000
and 1000 at ranks 1, 9, 10, 11, 100 and 1000. -/
theorem points_literal_values :
    calculate_points_for_rank 1 = 40000 ∧
    calculate_points_for_rank 9 = 4444.44 ∧
    calculate_points_for_rank 10 = 4000 ∧
    calculate_points_for_rank 11 = 3618.18 ∧
    calculate_points_for_rank 100 = 2000 ∧
    calculate_points_for_rank 1000 = 1000 :=
  ⟨points_val_1, points_val_9, points_val_10, points_val_11, points_val_100, points_val_1000⟩

/-- Claim C2: per map, a WR-change event fires and the snapshot is
overwritten exactly when the fetched rank-1 holder or time differs from the
stored snapshot, or the stored snapshot exists but the fetched leaderboard
is empty, in which case the snapshot is cleared and the single event names
no new holder. -/
theorem wr_reconciliation_spec (uid url mname : String) (forder : ℕ) (t : String)
    (rows : List Row) (pcApi : Int) (ffd : Bool) (db : DB) (sess : Session)
    (hrun : ffd = true ∨ rows = [])
    (hhead : ∀ r, rows.head? = some r →
      (truthyId r.playerId).isSome = true ∧ r.time.isSome = true) :
    ((processMap uid url mname forder t rows pcApi ffd db sess).2.new_wrs.length =
        sess.new_wrs.length +
          (match rows.head? with
           | none => if (wrStoredId db uid).isSome = true then 1 else 0
           | some r => if wrStoredId db uid ≠ truthyId r.playerId ∨
               wrStoredTime db uid ≠ r.time then 1 else 0)) ∧
    (wrStoredId (processMap uid url mname forder t rows pcApi ffd db sess).1 uid =
        (match rows.head? with
         | none => none
         | some r => if wrStoredId db uid ≠ truthyId r.playerId ∨
               wrStoredTime db uid ≠ r.time then truthyId r.playerId
             else wrStoredId db uid)) ∧
    (wrStoredTime (processMap uid url mname forder t rows pcApi ffd db sess).1 uid =
        (match rows.head? with
         | none => if (wrStoredId db uid).isSome = true then none else wrStoredTime db uid
         | some r => if wrStoredId db uid ≠ truthyId r.playerId ∨
               wrStoredTime db uid ≠ r.time then r.time
             else wrStoredTime db uid)) ∧
    (rows = [] → (wrStoredId db uid).isSome = true →
      (processMap uid url mname forder t rows pcApi ffd db sess).2.new_wrs =
        sess.new_wrs ++ [(mname, "None (Empty Leaderboard or WR Deleted)", none,
          wrStoredName db uid, wrStoredTime db uid)]) :=
  processMap_wr_spec uid url mname forder t rows pcApi ffd db sess hrun hhead

/-- Claim C2 witness: the WR reconciliation claim applied to a stored
snapshot (w1, 777 ms) against a fetched rank-1 row (p2, 500 ms). -/
theorem wr_reconciliation_spec_witness :
    (true = true ∨ [wRow] = []) ∧
    (∀ r, [wRow].head? = some r →
      (truthyId r.playerId).isSome = true ∧ r.time.isSome = true) ∧
    (((processMap "m" "u" "M" 0 "t1" [wRow] 1 true db0C5 emptySession).2.new_wrs.length =
        emptySession.new_wrs.length +
          (match [wRow].head? with
           | none => if (wrStoredId db0C5 "m").isSome = true then 1 else 0
           | some r => if wrStoredId db0C5 "m" ≠ truthyId r.playerId ∨
               wrStoredTime db0C5 "m" ≠ r.time then 1 else 0)) ∧
    (wrStoredId (processMap "m" "u" "M" 0 "t1" [wRow] 1 true db0C5 emptySession).1 "m" =
        (match [wRow].head? with
         | none => none
         | some r => if wrStoredId db0C5 "m" ≠ truthyId r.playerId ∨
               wrStoredTime db0C5 "m" ≠ r.time then truthyId r.playerId
             else wrStoredId db0C5 "m")) ∧
    (wrStoredTime (processMap "m" "u" "M" 0 "t1" [wRow] 1 true db0C5 emptySession).1 "m" =
        (match [wRow].head? with
         | none => if (wrStoredId db0C5 "m").isSome = true then none
             else wrStoredTime db0C5 "m"
         | some r => if wrStoredId db0C5 "m" ≠ truthyId r.playerId ∨
               wrStoredTime db0C5 "m" ≠ r.time then r.time
             else wrStoredTime db0C5 "m")) ∧
    ([wRow] = [] → (wrStoredId db0C5 "m").isSome = true →
      (processMap "m" "u" "M" 0 "t1" [wRow] 1 true db0C5 emptySession).2.new_wrs =
        emptySession.new_wrs ++ [("M", "None (Empty Leaderboard or WR Deleted)", none,
          wrStoredName db0C5 "m", wrStoredTime db0C5 "m")])) :=
  ⟨Or.inl rfl,
   fun r hr => by
     rw [List.head?_cons] at hr
     cases hr
     exact ⟨by decide, by decide⟩,
   wr_reconciliation_spec "m" "u" "M" 0 "t1" [wRow] 1 true db0C5 emptySession (Or.inl rfl)
     (fun r hr => by
       rw [List.head?_cons] at hr
       cases hr
       exact ⟨by decide, by decide⟩)⟩

/-- Claim C5: when the first page request errors out, the pagination loop
returns the empty row list after one request, and reconciling that empty
list against a store holding a WR snapshot clears the snapshot and logs one
WR-change event naming no new holder, so the map state does change. -/
theorem fetch_error_reconciliation (api : ℕ → Option (Int × List Row)) (fuel : ℕ)
    (uid url mname : String) (forder : ℕ) (t : String) (db : DB) (sess : Session)
    (herr : api 0 = none) (hwr : (wrStoredId db uid).isSome = true) :
    fetchLoopF api (fuel + 1) 0 0 false = some ([], 0, false, 1) ∧
    (processMap uid url mname forder t [] 0 false db sess).2.new_wrs =
      sess.new_wrs ++ [(mname, "None (Empty Leaderboard or WR Deleted)", none,
        wrStoredName db uid, wrStoredTime db uid)] ∧
    wrStoredId (processMap uid url mname forder t [] 0 false db sess).1 uid = none := by
  refine ⟨fetchLoopF_err api fuel 0 0 false herr, ?_, ?_⟩
  · exact (processMap_wr_spec uid url mname forder t [] 0 false db sess (Or.inr rfl)
      (fun r hr => (nomatch hr))).2.2.2 rfl hwr
  · exact (processMap_wr_spec uid url mname forder t [] 0 false db sess (Or.inr rfl)
      (fun r hr => (nomatch hr))).2.1

/-- Claim C5 witness: the error-path claim at a failing API and the concrete
store db0C5 holding a WR snapshot. -/
theorem fetch_error_reconciliation_witness :
    ((fun _ : ℕ => (none : Option (Int × List Row))) 0 = none) ∧
    ((wrStoredId db0C5 "m").isSome = true) ∧
    (fetchLoopF (fun _ => none) (0 + 1) 0 0 false = some ([], 0, false, 1) ∧
    (processMap "m" "u" "M" 0 "t1" [] 0 false db0C5 emptySession).2.new_wrs =
      emptySession.new_wrs ++ [("M", "None (Empty Leaderboard or WR Deleted)", none,
        wrStoredName db0C5 "m", wrStoredTime db0C5 "m")] ∧
    wrStoredId (processMap "m" "u" "M" 0 "t1" [] 0 false db0C5 emptySession).1 "m" = none) :=
  ⟨rfl, by decide,
   fetch_error_reconciliation (fun _ => none) 0 "m" "u" "M" 0 "t1" db0C5 emptySession rfl
     (by decide)⟩

/-- Claim C6: a fetched row whose record exists is classified as a personal
best, with the record overwritten and a PB event logged, exactly when the
fetched time is strictly lower than the stored time or the times are equal
and the fetched rank is strictly lower than the stored position. -/
theorem pb_classification_iff (uid mname t : String) (rank : ℕ) (r : Row) (db : DB)
    (sess : Session) {pid : String} {tnew told : Int} {rec : RecordRow}
    (hpid : truthyId r.playerId = some pid)
    (hrec : db.records uid pid = some rec)
    (htold : rec.time_ms = some told) (htnew : r.time = some tnew) :
    ((rowStep uid mname t rank r db sess).1.records uid pid =
        some { rec with
          time_ms := some tnew
          score := r.score
          position := rank
          game_timestamp := r.timestamp
          script_updated_at := t
          is_pb_since_last_fetch := true } ∧
      (rowStep uid mname t rank r db sess).2.new_pbs =
        sess.new_pbs ++ [(r.playerName.getD "Unknown", mname, some tnew, some told)]) ↔
      (tnew < told ∨ (tnew = told ∧ rank < rec.position)) :=
  rowStep_pb_spec uid mname t rank r db sess hpid hrec htold htnew

/-- Claim C6 witness: the PB classification claim applied to a stored
10000 ms record at position 5 refetched at 10000 ms rank 3 (a PB), and at
position 3 refetched at rank 5 (not a PB). -/
theorem pb_classification_iff_witness :
    (truthyId c6row.playerId = some "p9" ∧
      db0C6.records "m" "p9" = some ⟨some 10000, some 0, 5, none, "t0", "t0", false, false⟩ ∧
      db0C6b.records "m" "p9" = some ⟨some 10000, some 0, 3, none, "t0", "t0", false, false⟩) ∧
    (((rowStep "m" "M" "t1" 3 c6row db0C6 emptySession).1.records "m" "p9" =
        some ⟨some 10000, some 0, 3, none, "t0", "t1", true, false⟩ ∧
      (rowStep "m" "M" "t1" 3 c6row db0C6 emptySession).2.new_pbs =
        emptySession.new_pbs ++ [("P", "M", some 10000, some 10000)]) ↔
      ((10000 : Int) < 10000 ∨ ((10000 : Int) = 10000 ∧ 3 < 5))) ∧
    (((rowStep "m" "M" "t1" 5 c6row db0C6b emptySession).1.records "m" "p9" =
        some ⟨some 10000, some 0, 5, none, "t0", "t1", true, false⟩ ∧
      (rowStep "m" "M" "t1" 5 c6row db0C6b emptySession).2.new_pbs =
        emptySession.new_pbs ++ [("P", "M", some 10000, some 10000)]) ↔
      ((10000 : Int) < 10000 ∨ ((10000 : Int) = 10000 ∧ 5 < 3))) :=
  ⟨⟨by decide, by decide, by decide⟩,
   @pb_classification_iff "m" "M" "t1" 3 c6row db0C6 emptySession "p9" 10000 10000
     ⟨some 10000, some 0, 5, none, "t0", "t0", false, false⟩ (by decide) (by decide)
     (by decide) (by decide),
   @pb_classification_iff "m" "M" "t1" 5 c6row db0C6b emptySession "p9" 10000 10000
     ⟨some 10000, some 0, 3, none, "t0", "t0", false, false⟩ (by decide) (by decide)
     (by decide) (by decide)⟩

/-- Claim C4 (amended): pagination builds a well-formed page URL for a
template with no query parameters, for one whose first query parameter is
neither offset nor length, and for one all of whose parameters are offset
or length; a template whose first surviving position is preceded by a
stripped offset parameter is not covered, as stripping then leaves a
dangling separator. -/
theorem pagination_url_amended {path : List Char} {ps : List QParam} (off : ℕ)
    (hpath : goodPath path) (hps : ∀ p ∈ ps, goodParam p)
    (hsurv : ps = [] ∨
      (∃ p rest, ps = p :: rest ∧ p.key ≠ offsetName ∧ p.key ≠ lengthName) ∨
      (∀ p ∈ ps, p.key = offsetName ∨ p.key = lengthName)) :
    wellFormedUrl (pageUrl (buildBase (renderTemplate path ps)) off) = true :=
  pageUrl_template_wf off hpath hps hsurv

/-- Claim C4 witness: the amended pagination claim at the concrete template
path http://h/map/m with query a=1&offset=5, paged at offset 100. -/
theorem pagination_url_amended_witness :
    goodPath "http://h/map/m".data ∧
    (∀ p ∈ ([⟨['a'], ['1']⟩, ⟨offsetName, ['5']⟩] : List QParam), goodParam p) ∧
    (([⟨['a'], ['1']⟩, ⟨offsetName, ['5']⟩] : List QParam) = [] ∨
      (∃ p rest, ([⟨['a'], ['1']⟩, ⟨offsetName, ['5']⟩] : List QParam) = p :: rest ∧
        p.key ≠ offsetName ∧ p.key ≠ lengthName) ∨
      (∀ p ∈ ([⟨['a'], ['1']⟩, ⟨offsetName, ['5']⟩] : List QParam),
        p.key = offsetName ∨ p.key = lengthName)) ∧
    wellFormedUrl (pageUrl (buildBase (renderTemplate "http://h/map/m".data
      [⟨['a'], ['1']⟩, ⟨offsetName, ['5']⟩])) 100) = true :=
  ⟨by simp only [goodPath]; decide,
   by simp only [goodParam, goodKey, goodVal]; decide,
   Or.inr (Or.inl ⟨⟨['a'], ['1']⟩, [⟨offsetName, ['5']⟩], rfl, by decide, by decide⟩),
   pagination_url_amended 100 (by simp only [goodPath]; decide)
     (by simp only [goodParam, goodKey, goodVal]; decide)
     (Or.inr (Or.inl ⟨⟨['a'], ['1']⟩, [⟨offsetName, ['5']⟩], rfl, by decide, by decide⟩))⟩

/-- Claim C4 counterexample: a template whose first query parameter is
offset paginates to a URL with a dangling ampersand before the question
mark: the ampersand of the second parameter survives the strip, the strip
of the trailing separator only looks at the last character, and the
replaceFirst fix-up looks for the already-removed text ?offset=. -/
theorem pagination_url_counterexample :
    pageUrl (buildBase "http://h/map/m?offset=1&x=2".data) 0 =
      "http://h/map/m&x=2?offset=0&length=100".data ∧
    wellFormedUrl (pageUrl (buildBase "http://h/map/m?offset=1&x=2".data) 0) = false := by
  constructor
  · decide
  · decide

/-- Claim C7 (amended): re-reconciling an identical fetched leaderboard,
with flags reset and a fresh session, yields no events of any kind and
changes only the per-run timestamps, provided the fetched rows carry
pairwise distinct truthy player ids and the rank-1 row carries a player
name.  Without these provisos a duplicated row yields a second-run PB event
and a nameless rank-1 row yields second-run name-change events. -/
theorem reconciliation_idempotence_amended (uid url mname : String) (forder : ℕ)
    (t1 t2 : String) (rows : List Row) (pcApi : Int) (db : DB) (sess : Session)
    (hnodup : (rows.filterMap fun r => truthyId r.playerId).Nodup)
    (hheadname : ∀ r, rows.head? = some r → r.playerName.isSome = true) :
    (processMap uid url mname forder t2 rows pcApi true
      (resetFlags (processMap uid url mname forder t1 rows pcApi true db sess).1)
      emptySession).2 = emptySession ∧
    (∀ p, (processMap uid url mname forder t2 rows pcApi true
      (resetFlags (processMap uid url mname forder t1 rows pcApi true db sess).1)
      emptySession).1.players p =
      (resetFlags (processMap uid url mname forder t1 rows pcApi true db sess).1).players p) ∧
    (∀ m p, ((processMap uid url mname forder t2 rows pcApi true
      (resetFlags (processMap uid url mname forder t1 rows pcApi true db sess).1)
      emptySession).1.records m p).map scrubRec =
      ((resetFlags (processMap uid url mname forder t1 rows pcApi true db sess).1).records
        m p).map scrubRec) ∧
    (∀ k, ((processMap uid url mname forder t2 rows pcApi true
      (resetFlags (processMap uid url mname forder t1 rows pcApi true db sess).1)
      emptySession).1.maps k).map scrubMap =
      ((resetFlags (processMap uid url mname forder t1 rows pcApi true db sess).1).maps k).map
        scrubMap) :=
  processMap_second_run uid url mname forder t1 t2 rows pcApi db sess hnodup hheadname

/-- Claim C7 witness: the amended idempotence claim at a one-row fetched
leaderboard over the empty store. -/
theorem reconciliation_idempotence_amended_witness :
    ((([aRow].filterMap fun r => truthyId r.playerId).Nodup) ∧
      (∀ r, [aRow].head? = some r → r.playerName.isSome = true)) ∧
    ((processMap "m" "u" "M" 0 "t2" [aRow] 1 true
      (resetFlags (processMap "m" "u" "M" 0 "t1" [aRow] 1 true dbEmpty emptySession).1)
      emptySession).2 = emptySession ∧
    (∀ p, (processMap "m" "u" "M" 0 "t2" [aRow] 1 true
      (resetFlags (processMap "m" "u" "M" 0 "t1" [aRow] 1 true dbEmpty emptySession).1)
      emptySession).1.players p =
      (resetFlags (processMap "m" "u" "M" 0 "t1" [aRow] 1 true dbEmpty
        emptySession).1).players p) ∧
    (∀ m p, ((processMap "m" "u" "M" 0 "t2" [aRow] 1 true
      (resetFlags (processMap "m" "u" "M" 0 "t1" [aRow] 1 true dbEmpty emptySession).1)
      emptySession).1.records m p).map scrubRec =
      ((resetFlags (processMap "m" "u" "M" 0 "t1" [aRow] 1 true dbEmpty
        emptySession).1).records m p).map scrubRec) ∧
    (∀ k, ((processMap "m" "u" "M" 0 "t2" [aRow] 1 true
      (resetFlags (processMap "m" "u" "M" 0 "t1" [aRow] 1 true dbEmpty emptySession).1)
      emptySession).1.maps k).map scrubMap =
      ((resetFlags (processMap "m" "u" "M" 0 "t1" [aRow] 1 true dbEmpty
        emptySession).1).maps k).map scrubMap)) :=
  ⟨⟨by decide,
    fun r hr => by
      rw [List.head?_cons] at hr
      cases hr
      decide⟩,
   reconciliation_idempotence_amended "m" "u" "M" 0 "t1" "t2" [aRow] 1 dbEmpty emptySession
     (by decide)
     (fun r hr => by
       rw [List.head?_cons] at hr
       cases hr
       decide)⟩

/-- Claim C7 counterexample: a fetched page repeating the same player row
yields a PB event on the second identical run, and a rank-1 row with no
player name yields two name-change events on the second identical run, so
idempotence fails without the amended provisos. -/
theorem reconciliation_idempotence_counterexample :
    (processMap "m" "u" "M" 0 "t2" [qRow, qRow] 2 true
      (resetFlags (processMap "m" "u" "M" 0 "t1" [qRow, qRow] 2 true dbEmpty
        emptySession).1) emptySession).2.new_pbs.length = 1 ∧
    (processMap "m" "u" "M" 0 "t2" [nRow] 1 true
      (resetFlags (processMap "m" "u" "M" 0 "t1" [nRow] 1 true dbEmpty
        emptySession).1) emptySession).2.player_name_changes.length = 2 := by
  constructor
  · decide
  · decide

/-- Claim C8: the pagination loop stops after the current request when the
page is short of 100 rows, when the accumulated offset reaches a positive
reported player count, or when the reported count is zero at the
ten-thousand-record cap; a map reporting 250 players over pages of 100, 100
and 50 rows stops after exactly three requests whatever the remaining fuel. -/
theorem pagination_termination_spec (api : ℕ → Option (Int × List Row)) (fuel offset : ℕ)
    (pc : Int) (ffd : Bool) (rpc : Int) (rows : List Row)
    (h : api offset = some (rpc, rows)) (hne : rows ≠ []) :
    (rows.length < 100 →
      fetchLoopF api (fuel + 1) offset pc ffd =
        some (rows, (if ffd then pc else rpc), true, 1)) ∧
    ((offset + 100 : Int) ≥ (if ffd then pc else rpc) → (if ffd then pc else rpc) > 0 →
      fetchLoopF api (fuel + 1) offset pc ffd =
        some (rows, (if ffd then pc else rpc), true, 1)) ∧
    (offset + 100 ≥ 10000 → (if ffd then pc else rpc) = 0 →
      fetchLoopF api (fuel + 1) offset pc ffd =
        some (rows, (if ffd then pc else rpc), true, 1)) ∧
    (∀ extra : ℕ, fetchLoopF api250 (extra + 3) 0 0 false =
      some (List.replicate 100 dummyRow ++ (List.replicate 100 dummyRow ++
        List.replicate 50 dummyRow), 250, true, 3)) :=
  ⟨fun hlen => fetchLoopF_short api fuel offset pc ffd rpc rows h hne hlen,
   fun hge hpos => fetchLoopF_reach api fuel offset pc ffd rpc rows h hne hge hpos,
   fun hcap hz => fetchLoopF_cap api fuel offset pc ffd rpc rows h hne hcap hz,
   fetchLoopF_api250⟩

/-- Claim C8 witness: the termination claim applied to the third page of the
250-player map. -/
theorem pagination_termination_spec_witness :
    (api250 200 = some (250, List.replicate 50 dummyRow) ∧
      List.replicate 50 dummyRow ≠ []) ∧
    (((List.replicate 50 dummyRow).length < 100 →
      fetchLoopF api250 (0 + 1) 200 250 true =
        some (List.replicate 50 dummyRow, (if true then 250 else 250), true, 1)) ∧
    ((200 + 100 : Int) ≥ (if true then 250 else 250) → (if true then (250 : Int) else 250) > 0 →
      fetchLoopF api250 (0 + 1) 200 250 true =
        some (List.replicate 50 dummyRow, (if true then 250 else 250), true, 1)) ∧
    (200 + 100 ≥ 10000 → (if true then (250 : Int) else 250) = 0 →
      fetchLoopF api250 (0 + 1) 200 250 true =
        some (List.replicate 50 dummyRow, (if true then 250 else 250), true, 1)) ∧
    (∀ extra : ℕ, fetchLoopF api250 (extra + 3) 0 0 false =
      some (List.replicate 100 dummyRow ++ (List.replicate 100 dummyRow ++
        List.replicate 50 dummyRow), 250, true, 3))) :=
  ⟨⟨by decide, by decide⟩,
   pagination_termination_spec api250 0 200 250 true 250 (List.replicate 50 dummyRow)
     (by decide) (by decide)⟩
